import Mathlib

/-!
Verification of the OpenSandbox lifecycle server against its
natural-language specification.

The Python sources under `src/server/src` are shallowly embedded as Lean
definitions.  Strings are modelled as `List Char` where character-level
reasoning is needed; machine integers do not occur (all Python ints are
unbounded).  Python `None`-able values become `Option`.
-/

namespace OpenSandbox

/-! ## Python string primitives

Helpers mirroring the Python string operations used by the sources.
Python's `str.strip()` removes ASCII whitespace (space, \t, \n, \r, \x0b,
\x0c); Unicode whitespace is out of scope of this embedding.  `\d` and
`str.isdigit` are modelled as ASCII digits. -/

def pyIsSpace (c : Char) : Bool :=
  c = ' ' || c = '\t' || c = '\n' || c = '\r' || c = '\x0b' || c = '\x0c'

/-- Python `str.strip()`: drop leading and trailing whitespace. -/
def pyStrip (s : List Char) : List Char :=
  ((s.dropWhile pyIsSpace).reverse.dropWhile pyIsSpace).reverse

/-- Numeric value of a list of ASCII digit characters (most significant first). -/
def digitsVal (s : List Char) : Nat :=
  s.foldl (fun acc c => acc * 10 + (c.toNat - '0'.toNat)) 0

/-! ## `src/server/src/services/helpers.py` — memory parsing

`MEMORY_PATTERN = ^\s*(\d+)([kmgti]i?|[kmgti]?b)?\s*$` (IGNORECASE) and the
`MEMORY_MULTIPLIERS` table, followed by `parse_memory_limit`. -/

/-- The `MEMORY_MULTIPLIERS` dict from helpers.py (keys are lowercase). -/
def MEMORY_MULTIPLIERS : List (List Char × Nat) :=
  [ ([], 1)
  , (['b'], 1)
  , (['k'], 1000)
  , (['k','b'], 1000)
  , (['k','i'], 1024)
  , (['m'], 1000000)
  , (['m','b'], 1000000)
  , (['m','i'], 1024 ^ 2)
  , (['g'], 1000000000)
  , (['g','b'], 1000000000)
  , (['g','i'], 1024 ^ 3)
  , (['t'], 1000000000000)
  , (['t','b'], 1000000000000)
  , (['t','i'], 1024 ^ 4) ]

def lookupNat (m : List (List Char × Nat)) (k : List Char) : Option Nat :=
  match m with
  | [] => none
  | (k', v) :: rest => if k' = k then some v else lookupNat rest k

/-- Membership of `c` (case-folded) in the regex character class `[kmgti]`. -/
def memUnitClass (c : Char) : Bool :=
  c.toLower = 'k' || c.toLower = 'm' || c.toLower = 'g' ||
  c.toLower = 't' || c.toLower = 'i'

/-- The candidate matches of the optional unit group
`([kmgti]i?|[kmgti]?b)?` at the given position, as `(captured, rest)`
pairs in the regex engine's backtracking priority order:
`Ci`, `C`, `Cb`, `b`, then the group absent (captured `[]`).
Case-insensitive, as the pattern is compiled with `re.IGNORECASE`. -/
def memUnitCandidates : List Char → List (List Char × List Char)
  | [] => [([], [])]
  | [c1] =>
      (if memUnitClass c1 then [([c1], ([] : List Char))] else []) ++
      (if c1.toLower = 'b' then [([c1], ([] : List Char))] else []) ++
      [([], [c1])]
  | c1 :: c2 :: r =>
      (if memUnitClass c1 && c2.toLower = 'i' then [([c1, c2], r)] else []) ++
      (if memUnitClass c1 then [([c1], c2 :: r)] else []) ++
      (if memUnitClass c1 && c2.toLower = 'b' then [([c1, c2], r)] else []) ++
      (if c1.toLower = 'b' then [([c1], c2 :: r)] else []) ++
      [([], c1 :: c2 :: r)]

/-- `MEMORY_PATTERN.match(value)`: leading `\s*`, a nonempty digit run
(`\d+` is exact maximal munch: the unit alphabet contains no digit), the
optional unit group, then `\s*$`.  Returns the two captured groups
`(amount digits as Nat, unit as matched)` on success.

The first candidate whose remainder is all whitespace wins, matching the
engine's backtracking order.  (`$` also matches before a single trailing
newline; `\s*` absorbs any trailing newline anyway, so that quirk is
already covered.) -/
def memPatternMatch (value : List Char) : Option (Nat × List Char) :=
  let afterSpace := value.dropWhile pyIsSpace
  let digits := afterSpace.takeWhile Char.isDigit
  let rest := afterSpace.dropWhile Char.isDigit
  if digits.isEmpty then none
  else
    match (memUnitCandidates rest).find? (fun p => p.2.all pyIsSpace) with
    | none => none
    | some (unit, _) => some (digitsVal digits, unit)

/-- `parse_memory_limit` from helpers.py: convert a memory string
(e.g. `512Mi`) to bytes; `None` on falsy input, on a pattern mismatch, or
on a unit absent from `MEMORY_MULTIPLIERS` (`if not multiplier`). -/
def parse_memory_limit (value : Option (List Char)) : Option Nat :=
  match value with
  | none => none
  | some v =>
    if v.isEmpty then none
    else
      match memPatternMatch v with
      | none => none
      | some (amount, unit) =>
        match lookupNat MEMORY_MULTIPLIERS (unit.map Char.toLower) with
        | none => none
        | some multiplier =>
          if multiplier = 0 then none else some (amount * multiplier)

example : parse_memory_limit (some "512Mi".toList) = some 536870912 := by decide
example : parse_memory_limit (some "512i".toList) = none := by decide
example : parse_memory_limit (some "512ib".toList) = none := by decide
example : parse_memory_limit (some " 512 ".toList) = some 512 := by decide
example : parse_memory_limit (some "512kb".toList) = some 512000 := by decide
example : parse_memory_limit (some "512x".toList) = none := by decide

/-! ## `helpers.py` — CPU parsing

`parse_nano_cpus` strips/lowers the string, drops a trailing `m`
(milli-CPU) and converts via Python `float()`.  Python floats are
modelled as exact decimal rationals `man / 10 ^ scale`; every concrete
value claimed by the spec (`"500m"`, `"2"`) is exactly representable in
binary floating point and the intermediate results (`500.0`, `0.5`,
`5e8`, `2e9`) involve no rounding, so the exact model agrees with the
float computation there.  `float()` is modelled on its decimal grammar
(`[+-]? (d+ | d+.d* | .d+) ([eE][+-]?d+)?`); the further Python forms
(`inf`, `nan`, underscores) are rejected by the model, which is the
conservative direction for the claims proved below. -/

/-- An exact decimal number `man / 10 ^ scale`. -/
structure DecimalQ where
  man : Int
  scale : Nat
  deriving DecidableEq, Repr

/-- Exponent suffix `[eE][+-]?digits` (empty input means exponent 0). -/
def parseExpSuffix : List Char → Option Int
  | [] => some 0
  | e :: rest =>
    if e = 'e' || e = 'E' then
      match rest with
      | '+' :: ds => if ds ≠ [] && ds.all Char.isDigit then some (digitsVal ds) else none
      | '-' :: ds => if ds ≠ [] && ds.all Char.isDigit then some (-(digitsVal ds : Int)) else none
      | ds => if ds ≠ [] && ds.all Char.isDigit then some (digitsVal ds) else none
    else none

/-- Apply a power-of-ten exponent to an exact decimal. -/
def applyExp (d : DecimalQ) (e : Int) : DecimalQ :=
  if e ≥ 0 then { man := d.man * 10 ^ e.toNat, scale := d.scale }
  else { man := d.man, scale := d.scale + (-e).toNat }

/-- Unsigned decimal core of Python `float()` as an exact decimal. -/
def parseDecimalUnsigned (s : List Char) : Option DecimalQ :=
  let ip := s.takeWhile Char.isDigit
  let rest := s.dropWhile Char.isDigit
  match rest with
  | '.' :: rest2 =>
    let fp := rest2.takeWhile Char.isDigit
    let rest3 := rest2.dropWhile Char.isDigit
    if ip.isEmpty && fp.isEmpty then none
    else
      match parseExpSuffix rest3 with
      | none => none
      | some e =>
        some (applyExp ⟨digitsVal ip * 10 ^ fp.length + digitsVal fp, fp.length⟩ e)
  | _ =>
    if ip.isEmpty then none
    else
      match parseExpSuffix rest with
      | none => none
      | some e => some (applyExp ⟨digitsVal ip, 0⟩ e)

/-- Python `float(s)` on already-stripped input, as an exact decimal. -/
def pyFloat : List Char → Option DecimalQ
  | '+' :: rest => parseDecimalUnsigned rest
  | '-' :: rest => (parseDecimalUnsigned rest).map (fun d => ⟨-d.man, d.scale⟩)
  | s => parseDecimalUnsigned s

/-- `parse_nano_cpus` from helpers.py: convert a CPU string (e.g. `500m`,
`2`) to nano-CPUs; `None` on falsy input, on a `float()` parse failure,
or on a non-positive value.  `int()` truncates toward zero
(`Int.tdiv`). -/
def parse_nano_cpus (value : Option (List Char)) : Option Int :=
  match value with
  | none => none
  | some v =>
    if v.isEmpty then none
    else
      let cpu_str := (pyStrip v).map Char.toLower
      let cpusOpt : Option DecimalQ :=
        if cpu_str.getLast? = some 'm' then
          (pyFloat cpu_str.dropLast).map (fun d => ⟨d.man, d.scale + 3⟩)
        else pyFloat cpu_str
      match cpusOpt with
      | none => none
      | some cpus =>
        if cpus.man ≤ 0 then none
        else some ((cpus.man * 1000000000).tdiv ((10 : Int) ^ cpus.scale))

example : parse_nano_cpus (some "500m".toList) = some 500000000 := by decide
example : parse_nano_cpus (some "2".toList) = some 2000000000 := by decide
example : parse_nano_cpus (some "0".toList) = none := by decide
example : parse_nano_cpus (some "-1".toList) = none := by decide
example : parse_nano_cpus (some "abc".toList) = none := by decide
example : parse_nano_cpus (some "1.5".toList) = some 1500000000 := by decide

/-- The unit spellings `parse_memory_limit` recognizes: the decimal
family `k/m/g/t/b` (with the `b`-suffixed spellings `kb/mb/gb/tb`) and
the binary family `Ki/Mi/Gi/Ti` (case-folded). -/
def recognizedMemoryUnits : List (List Char) :=
  [ ['b']
  , ['k'], ['k','b'], ['k','i']
  , ['m'], ['m','b'], ['m','i']
  , ['g'], ['g','b'], ['g','i']
  , ['t'], ['t','b'], ['t','i'] ]

theorem lookupNat_eq_none_of_not_mem (m : List (List Char × Nat)) (k : List Char)
    (h : k ∉ m.map Prod.fst) : lookupNat m k = none := by
  induction m with
  | nil => rfl
  | cons p rest ih =>
    obtain ⟨k', v⟩ := p
    simp only [List.map_cons, List.mem_cons] at h
    push_neg at h
    simp only [lookupNat]
    rw [if_neg (Ne.symm h.1)]
    exact ih h.2

/-- C4: resource parsing is exact: `parse_memory_limit "512Mi"` is
536870912 bytes, `parse_nano_cpus "500m"` is 500000000 and
`parse_nano_cpus "2"` is 2000000000 nano-CPUs, and any memory string
whose (nonempty) unit suffix is not one of the recognized decimal
(`k/m/g/t/b`, including the `b`-suffixed spellings) or binary
(`Ki/Mi/Gi/Ti`) forms parses to `none` — unset, never zero. -/
theorem c4_resource_parsing :
    parse_memory_limit (some "512Mi".toList) = some 536870912 ∧
    parse_nano_cpus (some "500m".toList) = some 500000000 ∧
    parse_nano_cpus (some "2".toList) = some 2000000000 ∧
    ∀ (s : List Char) (amount : Nat) (unit : List Char),
      memPatternMatch s = some (amount, unit) → unit ≠ [] →
      unit.map Char.toLower ∉ recognizedMemoryUnits →
      parse_memory_limit (some s) = none := by
  refine ⟨by decide, by decide, by decide, ?_⟩
  intro s amount unit hmatch hne hnotmem
  have hs : ¬ s.isEmpty = true := by
    intro h
    rw [List.isEmpty_iff] at h
    subst h
    rw [show memPatternMatch [] = none from by decide] at hmatch
    exact Option.noConfusion hmatch
  have hkeys : unit.map Char.toLower ∉ MEMORY_MULTIPLIERS.map Prod.fst := by
    intro hmem
    simp only [MEMORY_MULTIPLIERS, List.map_cons, List.map_nil, List.mem_cons,
      List.not_mem_nil, or_false] at hmem
    rcases hmem with h | hmem
    · exact hne (List.map_eq_nil_iff.mp h)
    · apply hnotmem
      simp only [recognizedMemoryUnits, List.mem_cons, List.not_mem_nil, or_false]
      tauto
  simp only [parse_memory_limit, if_neg hs, hmatch,
    lookupNat_eq_none_of_not_mem _ _ hkeys]

/-- Witness for `c4_resource_parsing`: the string `512i` matches the
memory pattern with the unrecognized unit `i` and parses to `none`. -/
theorem c4_resource_parsing_witness :
    parse_memory_limit (some "512i".toList) = none :=
  c4_resource_parsing.2.2.2 "512i".toList 512 ['i'] (by decide) (by decide) (by decide)

/-! ## `helpers.py` — sandbox filtering

`matches_filter(sandbox, filter_)`.  The `Sandbox` / `SandboxFilter`
Pydantic models from `src/api/schema.py` are embedded as plain
structures carrying exactly the fields the function reads; Python dicts
become association lists (first match wins, as dict keys are unique). -/

structure SandboxStatus where
  state : Option String
  deriving Repr

structure SandboxM where
  status : SandboxStatus
  metadata : Option (List (String × String))
  deriving Repr

structure SandboxFilterM where
  state : Option (List String)
  metadata : Option (List (String × String))
  deriving Repr

/-- Python `dict.get` on an association list. -/
def lookupStr : List (String × String) → String → Option String
  | [], _ => none
  | (k, v) :: rest, key => if k = key then some v else lookupStr rest key

/-- `matches_filter` from helpers.py.  `if not filter_` is the `None`
case (a Pydantic model instance is always truthy); `if filter_.state` /
`if filter_.metadata` are falsy for `None` and for an empty
list/dict. -/
def matches_filter (sandbox : SandboxM) (filter_ : Option SandboxFilterM) : Bool :=
  match filter_ with
  | none => true
  | some f =>
    let stateOk : Bool :=
      match f.state with
      | none => true
      | some states =>
        if states.isEmpty then true
        else
          let current := (sandbox.status.state.getD "").toLower
          states.any (fun st => st.toLower = current)
    let metaOk : Bool :=
      match f.metadata with
      | none => true
      | some fm =>
        if fm.isEmpty then true
        else fm.all (fun kv => lookupStr (sandbox.metadata.getD []) kv.1 = some kv.2)
    stateOk && metaOk

/-- C8: `matches_filter` is true iff the state filter (when it lists
states) admits the sandbox's state case-insensitively (OR across
states), and every metadata filter key is present with a strictly equal
value (AND across keys); an absent or empty filter matches every
sandbox. -/
theorem c8_matches_filter (sandbox : SandboxM) (f : SandboxFilterM) :
    (matches_filter sandbox (some f) = true ↔
      ((∀ states, f.state = some states → states ≠ [] →
          ∃ st ∈ states, st.toLower = (sandbox.status.state.getD "").toLower) ∧
       (∀ fm, f.metadata = some fm →
          ∀ kv ∈ fm, lookupStr (sandbox.metadata.getD []) kv.1 = some kv.2))) ∧
    matches_filter sandbox none = true ∧
    (f.state = none → f.metadata = none → matches_filter sandbox (some f) = true) := by
  obtain ⟨fst, fmd⟩ := f
  refine ⟨?_, rfl, ?_⟩
  · have hstates : ∀ states : List String,
        (if states.isEmpty = true then true
         else states.any fun st =>
           decide (st.toLower = (sandbox.status.state.getD "").toLower)) = true ↔
        (states ≠ [] → ∃ st ∈ states,
           st.toLower = (sandbox.status.state.getD "").toLower) := by
      intro states
      by_cases h : states = []
      · subst h; simp
      · simp [List.isEmpty_iff, h, List.any_eq_true]
    have hmeta : ∀ fm : List (String × String),
        (if fm.isEmpty = true then true
         else fm.all fun kv =>
           decide (lookupStr (sandbox.metadata.getD []) kv.1 = some kv.2)) = true ↔
        (∀ kv ∈ fm, lookupStr (sandbox.metadata.getD []) kv.1 = some kv.2) := by
      intro fm
      by_cases h : fm = []
      · subst h; simp
      · simp [List.isEmpty_iff, h, List.all_eq_true]
    have hforallnil : ∀ fm : List (String × String), fm = [] →
        ∀ kv ∈ fm, lookupStr (sandbox.metadata.getD []) kv.1 = some kv.2 := by
      rintro _ rfl kv hkv
      simp at hkv
    have hemptyor : ∀ fm : List (String × String),
        (fm = [] ∨ ∀ kv ∈ fm, lookupStr (sandbox.metadata.getD []) kv.1 = some kv.2) ↔
        ∀ kv ∈ fm, lookupStr (sandbox.metadata.getD []) kv.1 = some kv.2 := by
      intro fm
      constructor
      · rintro (rfl | h)
        · exact hforallnil [] rfl
        · exact h
      · exact Or.inr
    cases fst with
    | none =>
      cases fmd with
      | none => simp [matches_filter]
      | some fm =>
        simpa [matches_filter, hmeta fm] using (hemptyor fm).symm
    | some states =>
      cases fmd with
      | none =>
        simpa [matches_filter, hstates states] using (or_iff_not_imp_left
          (a := states = [])
          (b := ∃ st ∈ states,
            st.toLower = (sandbox.status.state.getD "").toLower))
      | some fm =>
        simp only [matches_filter, Bool.and_eq_true, hstates states, hmeta fm]
        constructor
        · rintro ⟨h1, h2⟩
          refine ⟨?_, ?_⟩
          · rintro s hs hne
            cases hs
            exact h1 hne
          · rintro fm' hfm'
            cases hfm'
            exact h2
        · rintro ⟨h1, h2⟩
          exact ⟨h1 states rfl, h2 fm rfl⟩
  · intro hs hm
    simp only at hs hm
    subst hs
    subst hm
    rfl

/-- Witness for `c8_matches_filter`: the empty filter matches a concrete
sandbox. -/
theorem c8_matches_filter_witness :
    matches_filter ⟨⟨some "Running"⟩, some [("role", "a")]⟩ (some ⟨none, none⟩) = true :=
  (c8_matches_filter ⟨⟨some "Running"⟩, some [("role", "a")]⟩ ⟨none, none⟩).2.2 rfl rfl

/-! ## `helpers.py` — ingress endpoint formatting

`format_ingress_endpoint(ingress_config, sandbox_id, port)`.  The
configuration constants and model classes live in `src/config.py` and
the `OPEN_SANDBOX_INGRESS_HEADER` constant referenced from
`src/services/constants.py`, neither of which is part of the included
source snapshot; they are modelled from the spec below. -/

/-- Modelled from the spec: `INGRESS_MODE_GATEWAY` from `src/config.py`
(not in the snapshot); spec §6 has `ingress.mode ∈ {direct, gateway}`. -/
def INGRESS_MODE_GATEWAY : String := "gateway"

/-- Modelled from the spec: `GATEWAY_ROUTE_MODE_WILDCARD` from
`src/config.py`; spec §6 has `route.mode ∈ {wildcard, uri, header}`,
and `tests/test_ingress.py` passes these literals. -/
def GATEWAY_ROUTE_MODE_WILDCARD : String := "wildcard"

/-- Modelled from the spec: `GATEWAY_ROUTE_MODE_URI` from
`src/config.py`. -/
def GATEWAY_ROUTE_MODE_URI : String := "uri"

/-- Modelled from the spec: `GATEWAY_ROUTE_MODE_HEADER` from
`src/config.py`. -/
def GATEWAY_ROUTE_MODE_HEADER : String := "header"

/-- Modelled from the spec: `OPEN_SANDBOX_INGRESS_HEADER`, imported by
helpers.py from `src/services/constants.py` but absent from the included
snapshot of that file; spec §4.6 names the header
`X-OpenSandbox-Ingress`. -/
def OPEN_SANDBOX_INGRESS_HEADER : String := "X-OpenSandbox-Ingress"

structure GatewayRouteModeConfig where
  mode : String
  deriving Repr

structure GatewayConfig where
  address : String
  route : GatewayRouteModeConfig
  deriving Repr

structure IngressConfig where
  mode : String
  gateway : Option GatewayConfig
  deriving Repr

structure Endpoint where
  endpoint : String
  headers : Option (List (String × String))
  deriving Repr, DecidableEq

/-- Python `address.startswith("*.")`, over the string's characters. -/
def startsWithStarDot (s : String) : Bool :=
  match s.data with
  | '*' :: '.' :: _ => true
  | _ => false

/-- Python `address[2:]`, over the string's characters. -/
def strDrop2 (s : String) : String := ⟨s.data.drop 2⟩

/-- `format_ingress_endpoint` from helpers.py.  `.ok none` models the
`return None` paths (ingress absent, not gateway mode, gateway config
absent); `.error` models the `RuntimeError` for an unsupported route
mode. -/
def format_ingress_endpoint (ingress_config : Option IngressConfig)
    (sandbox_id : String) (port : Nat) : Except String (Option Endpoint) :=
  match ingress_config with
  | none => .ok none
  | some cfg =>
    if cfg.mode ≠ INGRESS_MODE_GATEWAY then .ok none
    else
      match cfg.gateway with
      | none => .ok none
      | some gateway_cfg =>
        let address := gateway_cfg.address
        let route_mode := gateway_cfg.route.mode
        if route_mode = GATEWAY_ROUTE_MODE_WILDCARD then
          let base := if startsWithStarDot address then strDrop2 address else address
          .ok (some ⟨sandbox_id ++ "-" ++ toString port ++ "." ++ base, none⟩)
        else if route_mode = GATEWAY_ROUTE_MODE_URI then
          .ok (some ⟨address ++ "/" ++ sandbox_id ++ "/" ++ toString port, none⟩)
        else if route_mode = GATEWAY_ROUTE_MODE_HEADER then
          .ok (some ⟨address,
            some [(OPEN_SANDBOX_INGRESS_HEADER, sandbox_id ++ "-" ++ toString port)]⟩)
        else .error ("Unsupported route mode: " ++ route_mode)

example :
    format_ingress_endpoint
      (some ⟨"gateway", some ⟨"*.example.com", ⟨"wildcard"⟩⟩⟩) "sid" 8080 =
    .ok (some ⟨"sid-8080.example.com", none⟩) := rfl
example :
    format_ingress_endpoint
      (some ⟨"gateway", some ⟨"gateway.example.com", ⟨"uri"⟩⟩⟩) "sid" 9000 =
    .ok (some ⟨"gateway.example.com/sid/9000", none⟩) := rfl
example :
    format_ingress_endpoint
      (some ⟨"gateway", some ⟨"gateway.example.com", ⟨"header"⟩⟩⟩) "sid" 8080 =
    .ok (some ⟨"gateway.example.com", some [("X-OpenSandbox-Ingress", "sid-8080")]⟩) := rfl
example :
    format_ingress_endpoint (some ⟨"direct", none⟩) "sid" 8080 = .ok none := rfl

/-- C5: with ingress in gateway mode, `format_ingress_endpoint` returns
`<sandbox_id>-<port>.<base>` in wildcard mode (base = address without
the leading `*.`), `<address>/<sandbox_id>/<port>` in uri mode, and in
header mode the address itself with `X-OpenSandbox-Ingress:
<sandbox_id>-<port>`; the headers field is populated only in header
mode. -/
theorem c5_format_ingress_endpoint (cfg : IngressConfig) (gw : GatewayConfig)
    (sid : String) (port : Nat)
    (hm : cfg.mode = "gateway") (hg : cfg.gateway = some gw) :
    (gw.route.mode = "wildcard" → startsWithStarDot gw.address = true →
      format_ingress_endpoint (some cfg) sid port =
        .ok (some ⟨sid ++ "-" ++ toString port ++ "." ++ strDrop2 gw.address, none⟩)) ∧
    (gw.route.mode = "uri" →
      format_ingress_endpoint (some cfg) sid port =
        .ok (some ⟨gw.address ++ "/" ++ sid ++ "/" ++ toString port, none⟩)) ∧
    (gw.route.mode = "header" →
      format_ingress_endpoint (some cfg) sid port =
        .ok (some ⟨gw.address,
          some [("X-OpenSandbox-Ingress", sid ++ "-" ++ toString port)]⟩)) ∧
    (∀ ep, format_ingress_endpoint (some cfg) sid port = .ok (some ep) →
      ep.headers ≠ none → gw.route.mode = "header") := by
  have hbase : format_ingress_endpoint (some cfg) sid port =
      (if gw.route.mode = "wildcard" then
        .ok (some ⟨sid ++ "-" ++ toString port ++ "." ++
          (if startsWithStarDot gw.address then strDrop2 gw.address else gw.address),
          none⟩)
      else if gw.route.mode = "uri" then
        .ok (some ⟨gw.address ++ "/" ++ sid ++ "/" ++ toString port, none⟩)
      else if gw.route.mode = "header" then
        .ok (some ⟨gw.address,
          some [(OPEN_SANDBOX_INGRESS_HEADER, sid ++ "-" ++ toString port)]⟩)
      else .error ("Unsupported route mode: " ++ gw.route.mode)) := by
    simp [format_ingress_endpoint, hm, hg, INGRESS_MODE_GATEWAY,
      GATEWAY_ROUTE_MODE_WILDCARD, GATEWAY_ROUTE_MODE_URI,
      GATEWAY_ROUTE_MODE_HEADER]
  refine ⟨?_, ?_, ?_, ?_⟩
  · intro hr hsw
    rw [hbase]
    simp [hr, hsw]
  · intro hr
    rw [hbase]
    simp [hr]
  · intro hr
    rw [hbase]
    simp [hr, OPEN_SANDBOX_INGRESS_HEADER]
  · intro ep hep hhdr
    rw [hbase] at hep
    by_cases h1 : gw.route.mode = "wildcard"
    · rw [if_pos h1] at hep
      simp only [Except.ok.injEq, Option.some.injEq] at hep
      rw [← hep] at hhdr
      simp at hhdr
    · rw [if_neg h1] at hep
      by_cases h2 : gw.route.mode = "uri"
      · rw [if_pos h2] at hep
        simp only [Except.ok.injEq, Option.some.injEq] at hep
        rw [← hep] at hhdr
        simp at hhdr
      · rw [if_neg h2] at hep
        by_cases h3 : gw.route.mode = "header"
        · exact h3
        · rw [if_neg h3] at hep
          exact absurd hep (by simp)

/-- Witness for `c5_format_ingress_endpoint`: the wildcard configuration
from `tests/test_ingress.py`. -/
theorem c5_format_ingress_endpoint_witness :
    format_ingress_endpoint
      (some ⟨"gateway", some ⟨"*.example.com", ⟨"wildcard"⟩⟩⟩) "sid" 8080 =
    .ok (some ⟨"sid-8080." ++ strDrop2 "*.example.com", none⟩) :=
  (c5_format_ingress_endpoint ⟨"gateway", some ⟨"*.example.com", ⟨"wildcard"⟩⟩⟩
    ⟨"*.example.com", ⟨"wildcard"⟩⟩ "sid" 8080 rfl rfl).1 rfl rfl

/-! ## `src/server/src/middleware/auth.py` — API-key authentication

`AuthMiddleware`: the proxy-path regex
`^(/v1)?/sandboxes/[^/]+/proxy/\d+(/|$)`, the `..` guard, key loading
and the `dispatch` decision.  Paths are `List Char`. -/

/-- Consume a literal from the front of a list; `some rest` on success. -/
def dropLit : List Char → List Char → Option (List Char)
  | [], s => some s
  | _ :: _, [] => none
  | c :: cs, x :: xs => if x = c then dropLit cs xs else none

/-- Python `".." in path` (substring containment). -/
def hasDotDot : List Char → Bool
  | '.' :: '.' :: _ => true
  | _ :: rest => hasDotDot rest
  | [] => false

/-- The part of `_PROXY_PATH_RE` after the optional `/v1` group:
`/sandboxes/[^/]+/proxy/\d+(/|$)`.

Backtracking is exact maximal munch here: `[^/]+` cannot cross a `/`
and is followed by the literal `/proxy/`, so only the maximal non-slash
run can succeed; likewise `\d+` is followed by `/` or `$`, and a
shortened digit run would put a digit where neither fits.  Python's `$`
(no MULTILINE) also matches just before one trailing newline, hence the
`['\n']` case.  `\d` is modelled as ASCII digits. -/
def proxyCore (s : List Char) : Bool :=
  match dropLit "/sandboxes/".toList s with
  | none => false
  | some r1 =>
    let seg := r1.takeWhile (fun c => c ≠ '/')
    let r2 := r1.dropWhile (fun c => c ≠ '/')
    if seg.isEmpty then false
    else
      match dropLit "/proxy/".toList r2 with
      | none => false
      | some r3 =>
        let ds := r3.takeWhile Char.isDigit
        let r4 := r3.dropWhile Char.isDigit
        if ds.isEmpty then false
        else
          match r4 with
          | [] => true
          | '/' :: _ => true
          | ['\n'] => true
          | _ => false

/-- `_PROXY_PATH_RE.match(path)` as a Bool: the optional greedy `(/v1)?`
group tries `/v1` first and falls back to the empty match; for a boolean
result that is the disjunction of the two. -/
def proxyRegexMatch (s : List Char) : Bool :=
  (match dropLit "/v1".toList s with
   | some r => proxyCore r
   | none => false) || proxyCore s

/-- `AuthMiddleware._is_proxy_path`: reject `..` anywhere, else match the
proxy-route regex. -/
def is_proxy_path (path : List Char) : Bool :=
  if hasDotDot path then false else proxyRegexMatch path

/-- `AuthMiddleware.EXEMPT_PATHS`. -/
def EXEMPT_PATHS : List (List Char) :=
  ["/health".toList, "/docs".toList, "/redoc".toList, "/openapi.json".toList]

/-- `AuthMiddleware._load_api_keys`: a configured key that is absent,
empty, or whitespace-only (`api_key and api_key.strip()` falsy) yields
the empty key set. -/
def load_api_keys (api_key : Option String) : List String :=
  match api_key with
  | none => []
  | some k => if k.data ≠ [] ∧ pyStrip k.data ≠ [] then [k] else []

inductive AuthOutcome
  | forwarded
  | missingKey
  | invalidKey
  | authorized
  deriving DecidableEq, Repr

/-- `AuthMiddleware.dispatch`: the authentication decision for one
request.  `forwarded` means `call_next` is reached without a key check
succeeding or failing; the two `401` bodies are `missingKey`
(`MISSING_API_KEY`, also for an empty header since `if not api_key`) and
`invalidKey` (`INVALID_API_KEY`); `authorized` is `call_next` after a
successful check. -/
def dispatch (valid_api_keys : List String) (path : List Char)
    (api_key : Option String) : AuthOutcome :=
  if EXEMPT_PATHS.any (fun p => (dropLit p path).isSome) then .forwarded
  else if is_proxy_path path then .forwarded
  else if valid_api_keys.isEmpty then .forwarded
  else
    match api_key with
    | none => .missingKey
    | some k =>
      if k.data = [] then .missingKey
      else if valid_api_keys.contains k then .authorized
      else .invalidKey

example : is_proxy_path "/sandboxes/id/proxy/8080".toList = true := by decide
example : is_proxy_path "/sandboxes/id/proxy/8080/".toList = true := by decide
example : is_proxy_path "/sandboxes/abc-123/proxy/8080/foo/bar".toList = true := by decide
example : is_proxy_path "/v1/sandboxes/id/proxy/443/path".toList = true := by decide
example : is_proxy_path "/proxy/sandboxes/x".toList = false := by decide
example : is_proxy_path "/foo/sandboxes/id/proxy/8080".toList = false := by decide
example : is_proxy_path "/sandboxes/abc/proxy/8080/../other".toList = false := by decide
example : is_proxy_path "/sandboxes/../admin/proxy/8080".toList = false := by decide
example : is_proxy_path "/sandboxes/s1/proxy/not-a-port/x".toList = false := by decide
example : is_proxy_path "/sandboxes//proxy/8080".toList = false := by decide

/-- C1: on any path that is not prefix-exempt, with API keys configured,
`dispatch` skips the key check exactly for the proxy route shape: regex
`^(/v1)?/sandboxes/[^/]+/proxy/\d+(/|$)` and no `..` substring.
Concrete shapes from the spec: the plain and `/v1` proxy routes are
exempt; `/proxy/sandboxes/…`, paths containing `..`, and a non-numeric
port are not. -/
theorem c1_auth_proxy_exemption (path : List Char) (keys : List String)
    (hdr : Option String) (hkeys : keys ≠ [])
    (hexempt : ∀ p ∈ EXEMPT_PATHS, (dropLit p path).isSome = false) :
    (dispatch keys path hdr = .forwarded ↔
      (hasDotDot path = false ∧ proxyRegexMatch path = true)) ∧
    is_proxy_path "/sandboxes/abc-123/proxy/8080/foo/bar".toList = true ∧
    is_proxy_path "/v1/sandboxes/sid/proxy/443/".toList = true ∧
    is_proxy_path "/proxy/sandboxes/anything".toList = false ∧
    is_proxy_path "/sandboxes/abc/proxy/8080/../other".toList = false ∧
    is_proxy_path "/sandboxes/s1/proxy/not-a-port/x".toList = false := by
  refine ⟨?_, by decide, by decide, by decide, by decide, by decide⟩
  have hex : EXEMPT_PATHS.any (fun p => (dropLit p path).isSome) = false := by
    rw [List.any_eq_false]
    intro p hp
    simp [hexempt p hp]
  rw [dispatch.eq_def, hex]
  simp only [Bool.false_eq_true, if_false]
  by_cases hp : is_proxy_path path = true
  · rw [if_pos hp]
    rw [is_proxy_path] at hp
    by_cases hd : hasDotDot path = true
    · rw [if_pos hd] at hp
      exact absurd hp (by simp)
    · simp only [Bool.not_eq_true] at hd
      rw [hd] at hp
      simp only [if_neg (by simp : ¬ (false = true))] at hp
      simp [hd, hp]
  · rw [if_neg hp]
    rw [if_neg (by simpa using hkeys)]
    have hrhs : ¬ (hasDotDot path = false ∧ proxyRegexMatch path = true) := by
      rintro ⟨hd, hr⟩
      apply hp
      rw [is_proxy_path, hd]
      simpa using hr
    cases hdr with
    | none => simp [hrhs]
    | some k =>
      by_cases hk : k.data = []
      · simp [hk, hrhs]
      · by_cases hc : k ∈ keys
        · simp [hk, hc, hrhs]
        · simp [hk, hc, hrhs]

/-- Witness for `c1_auth_proxy_exemption`: a proxy-shaped path is
forwarded without a key check even with a key configured and no header
sent. -/
theorem c1_auth_proxy_exemption_witness :
    dispatch ["secret"] "/sandboxes/abc/proxy/8080/run".toList none = .forwarded :=
  ((c1_auth_proxy_exemption "/sandboxes/abc/proxy/8080/run".toList ["secret"] none
    (by decide) (by decide)).1).mpr (by decide)

/-- C10: when the configured `server.api_key` is absent, empty, or
whitespace-only, `_load_api_keys` yields no keys and `dispatch` forwards
every request — any path, any header — without checking the
`OPEN-SANDBOX-API-KEY` header. -/
theorem c10_auth_disabled_when_key_blank (cfg_key : Option String)
    (hblank : ∀ k, cfg_key = some k → pyStrip k.data = [])
    (path : List Char) (hdr : Option String) :
    dispatch (load_api_keys cfg_key) path hdr = .forwarded := by
  have hempty : load_api_keys cfg_key = [] := by
    cases cfg_key with
    | none => rfl
    | some k =>
      have hs := hblank k rfl
      rw [load_api_keys]
      rw [if_neg]
      rintro ⟨-, h2⟩
      exact h2 hs
  rw [hempty, dispatch.eq_def]
  simp

/-- Witness for `c10_auth_disabled_when_key_blank`: a whitespace-only
configured key disables authentication for an ordinary API path. -/
theorem c10_auth_disabled_when_key_blank_witness :
    dispatch (load_api_keys (some "   ")) "/sandboxes".toList none = .forwarded :=
  c10_auth_disabled_when_key_blank (some "   ")
    (by intro k hk; cases hk; decide) "/sandboxes".toList none

/-! ## `src/server/src/api/lifecycle.py` — reverse proxy

`proxy_sandbox_endpoint_request`: header filtering and the error paths
of the `try/except` block.  Header names are `List Char` (compared after
`key.lower()`); header values are opaque `String`s. -/

/-- `HOP_BY_HOP_HEADERS` from lifecycle.py (RFC 2616 §13.5.1). -/
def HOP_BY_HOP_HEADERS : List (List Char) :=
  [ "connection".toList
  , "keep-alive".toList
  , "proxy-authenticate".toList
  , "proxy-authorization".toList
  , "te".toList
  , "trailers".toList
  , "transfer-encoding".toList
  , "upgrade".toList ]

/-- `SENSITIVE_HEADERS` from lifecycle.py. -/
def SENSITIVE_HEADERS : List (List Char) :=
  ["authorization".toList, "cookie".toList]

/-- The header-filtering loop of `proxy_sandbox_endpoint_request`: keep
a client header iff its lowercased name is not `host`, not hop-by-hop,
and not sensitive.  (The Python loop inserts the kept items into a
fresh dict keyed by the original-case name; the dict insertion only
deduplicates repeated names and does not change which names survive, so
the loop is embedded as a filter.) -/
def filterProxyHeaders (hs : List (List Char × String)) : List (List Char × String) :=
  hs.filter (fun kv =>
    let key_lower := kv.1.map Char.toLower
    decide (key_lower ≠ "host".toList ∧
      key_lower ∉ HOP_BY_HOP_HEADERS ∧ key_lower ∉ SENSITIVE_HEADERS))

/-- What the upstream `client.send` would do for the proxied request. -/
inductive UpstreamResult
  | ok (status : Nat)
  | connectError
  | otherError
  deriving DecidableEq, Repr

/-- Outcome of the `try:` body of `proxy_sandbox_endpoint_request`:
either a streamed upstream response, or an exception.  The body raises
`HTTPException(400)` for `GET` requests whose `Upgrade` header equals
`websocket` (checked before `client.send`); `client.send` may raise
`httpx.ConnectError` or any other exception. -/
inductive TryResult
  | success (status : Nat)
  | httpExc (status : Nat)
  | connectExc
  | otherExc
  deriving DecidableEq, Repr

def proxyTryBody (method : String) (upgrade : Option String)
    (upstream : UpstreamResult) : TryResult :=
  if method = "GET" ∧ upgrade = some "websocket" then .httpExc 400
  else
    match upstream with
    | .ok s => .success s
    | .connectError => .connectExc
    | .otherError => .otherExc

/-- Response status of `proxy_sandbox_endpoint_request`.  The `except`
clauses are tried in order: `except httpx.ConnectError` re-raises as
`HTTPException(502)`; the following `except Exception` re-raises
anything else — including the `HTTPException(400)` raised inside the
`try:` body for a websocket upgrade, since FastAPI's `HTTPException`
subclasses `Exception` — as `HTTPException(500)`.  Exceptions raised
inside an `except` clause propagate and are not caught by later clauses
of the same `try`. -/
def proxy_status (method : String) (upgrade : Option String)
    (upstream : UpstreamResult) : Nat :=
  match proxyTryBody method upgrade upstream with
  | .success s => s
  | .connectExc => 502
  | .httpExc _ => 500
  | .otherExc => 500

example : proxy_status "POST" none (.ok 200) = 200 := by decide
example : proxy_status "POST" (some "websocket") (.ok 200) = 200 := by decide
example : proxy_status "GET" (some "h2c") (.ok 201) = 201 := by decide

/-- C2 (code bug): the upstream-connection-refused path does map to 502,
but a `GET` request with `Upgrade: websocket` is answered with 500, not
the claimed 400 — the handler's own `HTTPException(400)` (visible as
`.httpExc 400` in the try-body model) is swallowed by its catch-all
`except Exception` and re-raised as 500. -/
theorem c2_websocket_and_502_status :
    proxy_status "POST" none .connectError = 502 ∧
    proxy_status "GET" none .connectError = 502 ∧
    proxyTryBody "GET" (some "websocket") (.ok 200) = .httpExc 400 ∧
    proxy_status "GET" (some "websocket") (.ok 200) = 500 ∧
    proxy_status "GET" (some "websocket") .connectError = 500 ∧
    proxy_status "GET" (some "websocket") .otherError = 500 := by
  decide

/-- C3: a client header survives the proxy filter iff its lowercased
name is outside {host} ∪ hop-by-hop ∪ {authorization, cookie}; in
particular no forwarded header is named Authorization or Cookie in any
casing. -/
theorem c3_proxy_header_filtering (hs : List (List Char × String))
    (k : List Char) (v : String) :
    ((k, v) ∈ filterProxyHeaders hs ↔
      ((k, v) ∈ hs ∧ k.map Char.toLower ∉
        [ "host".toList
        , "connection".toList, "keep-alive".toList, "proxy-authenticate".toList
        , "proxy-authorization".toList, "te".toList, "trailers".toList
        , "transfer-encoding".toList, "upgrade".toList
        , "authorization".toList, "cookie".toList ])) ∧
    (∀ kv ∈ filterProxyHeaders hs,
      kv.1.map Char.toLower ≠ "authorization".toList ∧
      kv.1.map Char.toLower ≠ "cookie".toList) := by
  constructor
  · rw [filterProxyHeaders, List.mem_filter]
    simp only [decide_eq_true_eq, HOP_BY_HOP_HEADERS, SENSITIVE_HEADERS,
      List.mem_cons, List.not_mem_nil, or_false]
    constructor
    · rintro ⟨h1, h2, h3, h4⟩
      refine ⟨h1, ?_⟩
      push_neg at h3 h4 ⊢
      exact ⟨h2, h3.1, h3.2.1, h3.2.2.1, h3.2.2.2.1, h3.2.2.2.2.1,
        h3.2.2.2.2.2.1, h3.2.2.2.2.2.2.1, h3.2.2.2.2.2.2.2, h4.1, h4.2⟩
    · rintro ⟨h1, h2⟩
      push_neg at h2
      exact ⟨h1, h2.1, by push_neg; exact ⟨h2.2.1, h2.2.2.1, h2.2.2.2.1,
        h2.2.2.2.2.1, h2.2.2.2.2.2.1, h2.2.2.2.2.2.2.1, h2.2.2.2.2.2.2.2.1,
        h2.2.2.2.2.2.2.2.2.1⟩,
        by push_neg; exact ⟨h2.2.2.2.2.2.2.2.2.2.1, h2.2.2.2.2.2.2.2.2.2.2⟩⟩
  · intro kv hkv
    rw [filterProxyHeaders, List.mem_filter] at hkv
    have h := of_decide_eq_true hkv.2
    simp only [SENSITIVE_HEADERS, List.mem_cons, List.not_mem_nil, or_false] at h
    push_neg at h
    exact ⟨h.2.2.1, h.2.2.2⟩

/-- Witness for `c3_proxy_header_filtering`: on a concrete request, the
benign header is forwarded while `Authorization` and `Cookie` are
stripped. -/
theorem c3_proxy_header_filtering_witness :
    (("x-request-id".toList, "1") ∈ filterProxyHeaders
      [ ("Authorization".toList, "secret")
      , ("Cookie".toList, "session")
      , ("x-request-id".toList, "1") ]) ∧
    (("x-request-id".toList : List Char).map Char.toLower ≠ "authorization".toList ∧
      ("x-request-id".toList : List Char).map Char.toLower ≠ "cookie".toList) :=
  ⟨(c3_proxy_header_filtering
      [ ("Authorization".toList, "secret")
      , ("Cookie".toList, "session")
      , ("x-request-id".toList, "1") ] "x-request-id".toList "1").1.mpr
    ⟨by decide, by decide⟩,
   by
    have h := (c3_proxy_header_filtering
      [ ("Authorization".toList, "secret")
      , ("Cookie".toList, "session")
      , ("x-request-id".toList, "1") ] "x-request-id".toList "1").2
      ("x-request-id".toList, "1") (by decide)
    exact h⟩

/-! ## `src/server/src/services/k8s/informer.py` — workload informer

`WorkloadInformer`: the mutable triple `(cache, resource_version,
has_synced)` is the state; one iteration of the `_run` while-loop is a
state transition parameterized by the list response a resync would
return, the watch events processed, and how the watch ended.  The
threading/lock aspects are outside a shallow embedding; "replace the
cache under the lock in a single assignment" is captured by the new
cache being exactly the freshly built map, not a merge. -/

structure ObjMeta where
  name : Option String
  resourceVersion : Option String
  deriving DecidableEq, Repr

/-- A custom-resource object: its `metadata` plus an opaque payload
standing for the remaining fields. -/
structure KObj where
  metadata : ObjMeta
  payload : String
  deriving DecidableEq, Repr

/-- The dict returned by `list_namespaced_custom_object`: `items` and
`metadata.resourceVersion`. -/
structure ListResponse where
  items : List KObj
  resourceVersion : Option String
  deriving DecidableEq, Repr

structure InformerState where
  cache : List (String × KObj)
  resource_version : Option String
  has_synced : Bool
  deriving DecidableEq, Repr

/-- Python truthiness of an optional string (`None` and `""` falsy). -/
def strTruthy : Option String → Bool
  | none => false
  | some s => decide (s.data ≠ [])

/-- Python `dict[name] = obj`: update in place if present, else append. -/
def dictUpsert (m : List (String × KObj)) (k : String) (v : KObj) :
    List (String × KObj) :=
  if m.any (fun p => p.1 == k) then
    m.map (fun p => if p.1 == k then (k, v) else p)
  else m ++ [(k, v)]

/-- The cache built by `_full_resync`'s loop over `items`: entries with
a truthy `metadata.name`, later duplicates overwriting earlier ones. -/
def buildNewCache (items : List KObj) : List (String × KObj) :=
  items.foldl (fun acc item =>
    match item.metadata.name with
    | none => acc
    | some n => if n.data = [] then acc else dictUpsert acc n item) []

/-- `WorkloadInformer._full_resync`: build the new map off-lock, then
swap it in wholesale, capture the collection's `resourceVersion` when
truthy, and mark the informer synced. -/
def full_resync (resp : ListResponse) (s : InformerState) : InformerState :=
  { cache := buildNewCache resp.items
  , resource_version :=
      if strTruthy resp.resourceVersion then resp.resourceVersion
      else s.resource_version
  , has_synced := true }

/-- One event from `watch.Watch().stream(...)`.  `obj = none` models
both a missing `object` field and a non-dict object that fails
`to_dict()` (either way `_handle_event` returns early). -/
structure WatchEvent where
  type_ : String
  obj : Option KObj
  deriving DecidableEq, Repr

/-- `WorkloadInformer._handle_event`: `DELETED` pops the name, anything
else upserts; a truthy per-object `resourceVersion` becomes the new
cursor. -/
def handle_event (s : InformerState) (ev : WatchEvent) : InformerState :=
  match ev.obj with
  | none => s
  | some obj =>
    match obj.metadata.name with
    | none => s
    | some n =>
      if n.data = [] then s
      else
        { cache :=
            if ev.type_ = "DELETED" then s.cache.filter (fun p => ¬ p.1 == n)
            else dictUpsert s.cache n obj
        , resource_version :=
            if strTruthy obj.metadata.resourceVersion then obj.metadata.resourceVersion
            else s.resource_version
        , has_synced := s.has_synced }

/-- How a watch session ended: normal stream end (timeout), an
`ApiException` carrying an HTTP status, or any other exception. -/
inductive WatchEnd
  | completed
  | apiError (status : Nat)
  | otherError
  deriving DecidableEq, Repr

/-- The watch phase of one `_run` iteration followed by `_run`'s
exception handling: process the events that arrived before the session
ended, then, per the `except` clauses, a 410 `ApiException` discards
the cursor and marks not-synced, while any other failure only marks
not-synced (and backs off, which has no effect on this state). -/
def apply_watch (events : List WatchEvent) (ending : WatchEnd)
    (s : InformerState) : InformerState :=
  let s2 := events.foldl handle_event s
  match ending with
  | .completed => s2
  | .apiError st =>
      if st = 410 then { s2 with resource_version := none, has_synced := false }
      else { s2 with has_synced := false }
  | .otherError => { s2 with has_synced := false }

/-- One iteration of the `while not self._stop_event.is_set()` body of
`WorkloadInformer._run` with watching enabled: a full resync when not
yet synced, then the watch session. -/
def run_iteration (resp : ListResponse) (events : List WatchEvent)
    (ending : WatchEnd) (s : InformerState) : InformerState :=
  apply_watch events ending (if s.has_synced then s else full_resync resp s)

/-- C6: a watch ending in an ApiException with status 410 clears the
`resourceVersion` cursor and marks the informer not-synced; the next
loop iteration therefore runs the full list first, and that list
replaces the cache with the freshly built name-to-object map, adopts
the collection's (truthy) `resourceVersion` as the new cursor, and sets
`has_synced` back to true. -/
theorem c6_informer_410_recovery (s : InformerState)
    (resp resp2 : ListResponse) (events : List WatchEvent) (rv2 : String)
    (hrv : resp2.resourceVersion = some rv2) (hne : rv2.data ≠ []) :
    (run_iteration resp events (.apiError 410) s).resource_version = none ∧
    (run_iteration resp events (.apiError 410) s).has_synced = false ∧
    full_resync resp2 (run_iteration resp events (.apiError 410) s) =
      { cache := buildNewCache resp2.items
      , resource_version := some rv2
      , has_synced := true } ∧
    (∀ (events2 : List WatchEvent) (ending2 : WatchEnd),
      run_iteration resp2 events2 ending2 (run_iteration resp events (.apiError 410) s) =
        apply_watch events2 ending2
          (full_resync resp2 (run_iteration resp events (.apiError 410) s))) := by
  have h1 : (run_iteration resp events (.apiError 410) s).resource_version = none := by
    simp [run_iteration, apply_watch]
  have h2 : (run_iteration resp events (.apiError 410) s).has_synced = false := by
    simp [run_iteration, apply_watch]
  refine ⟨h1, h2, ?_, ?_⟩
  · rw [full_resync, h1, hrv]
    simp [strTruthy, hne]
  · intro events2 ending2
    rw [run_iteration, if_neg (by rw [h2]; exact Bool.false_ne_true)]

/-- Witness for `c6_informer_410_recovery`: a concrete informer state
hit by a 410 and recovering from a two-item list response. -/
theorem c6_informer_410_recovery_witness :
    (run_iteration ⟨[], none⟩ [] (.apiError 410)
        ⟨[("old", ⟨⟨some "old", some "3"⟩, "x"⟩)], some "3", true⟩).resource_version
          = none ∧
    (run_iteration ⟨[], none⟩ [] (.apiError 410)
        ⟨[("old", ⟨⟨some "old", some "3"⟩, "x"⟩)], some "3", true⟩).has_synced = false ∧
    full_resync ⟨[⟨⟨some "a", some "41"⟩, "p"⟩, ⟨⟨some "b", some "42"⟩, "q"⟩], some "42"⟩
        (run_iteration ⟨[], none⟩ [] (.apiError 410)
          ⟨[("old", ⟨⟨some "old", some "3"⟩, "x"⟩)], some "3", true⟩) =
      { cache := buildNewCache [⟨⟨some "a", some "41"⟩, "p"⟩, ⟨⟨some "b", some "42"⟩, "q"⟩]
      , resource_version := some "42"
      , has_synced := true } ∧
    (∀ (events2 : List WatchEvent) (ending2 : WatchEnd),
      run_iteration ⟨[⟨⟨some "a", some "41"⟩, "p"⟩, ⟨⟨some "b", some "42"⟩, "q"⟩], some "42"⟩
          events2 ending2
          (run_iteration ⟨[], none⟩ [] (.apiError 410)
            ⟨[("old", ⟨⟨some "old", some "3"⟩, "x"⟩)], some "3", true⟩) =
        apply_watch events2 ending2
          (full_resync
            ⟨[⟨⟨some "a", some "41"⟩, "p"⟩, ⟨⟨some "b", some "42"⟩, "q"⟩], some "42"⟩
            (run_iteration ⟨[], none⟩ [] (.apiError 410)
              ⟨[("old", ⟨⟨some "old", some "3"⟩, "x"⟩)], some "3", true⟩))) :=
  c6_informer_410_recovery
    ⟨[("old", ⟨⟨some "old", some "3"⟩, "x"⟩)], some "3", true⟩
    ⟨[], none⟩
    ⟨[⟨⟨some "a", some "41"⟩, "p"⟩, ⟨⟨some "b", some "42"⟩, "q"⟩], some "42"⟩
    [] "42" rfl (by decide)

/-! ## Template managers — deep merge

`BaseSandboxTemplateManager._deep_merge` (template_manager.py) and
`AgentSandboxTemplateManager._deep_merge` (agent_sandbox_template.py)
have textually identical bodies; both are embedded, and proved equal.
YAML/JSON-like Python values are `PyVal`; Python dicts are association
lists with unique keys, ordered by insertion (updating an existing key
keeps its position, a new key is appended — CPython dict semantics).
The classes' identical `_deep_copy` helpers are embedded once as
`deep_copy`; in a pure value model copying returns an equal value
(`deep_copy_eq`). -/

inductive PyVal where
  | none
  | bool (b : Bool)
  | int (n : Int)
  | str (s : String)
  | list (xs : List PyVal)
  | dict (kvs : List (String × PyVal))
  deriving Repr

/-- Python `value is None`. -/
def pyIsNone : PyVal → Bool
  | .none => true
  | _ => false

/-- Python `result[key]` / `key in result` on an association list. -/
def lookupVal : List (String × PyVal) → String → Option PyVal
  | [], _ => Option.none
  | (k', v) :: rest, k => if k' = k then some v else lookupVal rest k

/-- Python `result[key] = v` for a key already present (first binding is
replaced in place); appends when absent. -/
def setKeyVal : List (String × PyVal) → String → PyVal → List (String × PyVal)
  | [], k, v => [(k, v)]
  | (k', v') :: rest, k, v =>
    if k' = k then (k, v) :: rest else (k', v') :: setKeyVal rest k v

mutual

/-- `_deep_copy` from both template managers. -/
def deep_copy : PyVal → PyVal
  | .none => .none
  | .bool b => .bool b
  | .int n => .int n
  | .str s => .str s
  | .list xs => .list (deep_copy_list xs)
  | .dict kvs => .dict (deep_copy_dict kvs)

def deep_copy_list : List PyVal → List PyVal
  | [] => []
  | x :: xs => deep_copy x :: deep_copy_list xs

def deep_copy_dict : List (String × PyVal) → List (String × PyVal)
  | [] => []
  | (k, v) :: kvs => (k, deep_copy v) :: deep_copy_dict kvs

end

mutual

theorem deep_copy_eq : ∀ v, deep_copy v = v
  | .none => rfl
  | .bool _ => rfl
  | .int _ => rfl
  | .str _ => rfl
  | .list xs => by rw [deep_copy, deep_copy_list_eq xs]
  | .dict kvs => by rw [deep_copy, deep_copy_dict_eq kvs]

theorem deep_copy_list_eq : ∀ xs, deep_copy_list xs = xs
  | [] => rfl
  | x :: xs => by rw [deep_copy_list, deep_copy_eq x, deep_copy_list_eq xs]

theorem deep_copy_dict_eq : ∀ kvs, deep_copy_dict kvs = kvs
  | [] => rfl
  | (k, v) :: kvs => by rw [deep_copy_dict, deep_copy_eq v, deep_copy_dict_eq kvs]

end

mutual

/-- The value `BaseSandboxTemplateManager._deep_merge` stores for a key
already present in `result`: the `elif` branch recurses when both the
present value and the override value are dicts, the `else` branch deep
copies the override value. -/
def base_merge_value : PyVal → PyVal → PyVal
  | PyVal.dict bd, PyVal.dict od => PyVal.dict (base_deep_merge bd od)
  | _, ov => deep_copy ov

/-- `BaseSandboxTemplateManager._deep_merge`: fold the override's items
into a copy of the base.  `None` values are skipped (`continue`); a key
not in `result` appends its deep-copied value; a present key is
reassigned `base_merge_value` in place. -/
def base_deep_merge :
    List (String × PyVal) → List (String × PyVal) → List (String × PyVal)
  | result, [] => result
  | result, (key, ov) :: rest =>
    if pyIsNone ov then base_deep_merge result rest
    else
      base_deep_merge
        (match lookupVal result key with
         | Option.none => result ++ [(key, deep_copy ov)]
         | some bv => setKeyVal result key (base_merge_value bv ov))
        rest

end

mutual

/-- `AgentSandboxTemplateManager._deep_merge`'s present-key value:
textually identical to the base manager's. -/
def agent_merge_value : PyVal → PyVal → PyVal
  | PyVal.dict bd, PyVal.dict od => PyVal.dict (agent_deep_merge bd od)
  | _, ov => deep_copy ov

/-- `AgentSandboxTemplateManager._deep_merge`: textually identical to
the base manager's merge. -/
def agent_deep_merge :
    List (String × PyVal) → List (String × PyVal) → List (String × PyVal)
  | result, [] => result
  | result, (key, ov) :: rest =>
    if pyIsNone ov then agent_deep_merge result rest
    else
      agent_deep_merge
        (match lookupVal result key with
         | Option.none => result ++ [(key, deep_copy ov)]
         | some bv => setKeyVal result key (agent_merge_value bv ov))
        rest

end

theorem lookupVal_eq_none_of_not_mem (m : List (String × PyVal)) (k : String)
    (h : k ∉ m.map Prod.fst) : lookupVal m k = Option.none := by
  induction m with
  | nil => rfl
  | cons p rest ih =>
    obtain ⟨k', v⟩ := p
    simp only [List.map_cons, List.mem_cons] at h
    push_neg at h
    rw [lookupVal, if_neg (Ne.symm h.1)]
    exact ih h.2

theorem lookupVal_append_other (m : List (String × PyVal)) (key k : String)
    (v : PyVal) (h : key ≠ k) :
    lookupVal (m ++ [(key, v)]) k = lookupVal m k := by
  induction m with
  | nil => simp [lookupVal, h]
  | cons p rest ih =>
    obtain ⟨k', v'⟩ := p
    rw [List.cons_append, lookupVal]
    by_cases hk : k' = k
    · rw [if_pos hk, lookupVal, if_pos hk]
    · rw [if_neg hk, ih, lookupVal, if_neg hk]

theorem lookupVal_append_self (m : List (String × PyVal)) (k : String)
    (v : PyVal) (h : lookupVal m k = Option.none) :
    lookupVal (m ++ [(k, v)]) k = some v := by
  induction m with
  | nil =>
    rw [List.nil_append, lookupVal, if_pos rfl]
  | cons p rest ih =>
    obtain ⟨k', v'⟩ := p
    rw [lookupVal] at h
    by_cases hk : k' = k
    · rw [if_pos hk] at h
      exact Option.noConfusion h
    · rw [if_neg hk] at h
      rw [List.cons_append, lookupVal, if_neg hk]
      exact ih h

theorem lookupVal_setKey_self (m : List (String × PyVal)) (k : String)
    (v : PyVal) : lookupVal (setKeyVal m k v) k = some v := by
  induction m with
  | nil => rw [setKeyVal, lookupVal, if_pos rfl]
  | cons p rest ih =>
    obtain ⟨k', v'⟩ := p
    rw [setKeyVal]
    by_cases hk : k' = k
    · rw [if_pos hk, lookupVal, if_pos rfl]
    · rw [if_neg hk, lookupVal, if_neg hk]
      exact ih

theorem lookupVal_setKey_other (m : List (String × PyVal)) (key k : String)
    (v : PyVal) (h : key ≠ k) :
    lookupVal (setKeyVal m key v) k = lookupVal m k := by
  induction m with
  | nil => simp [setKeyVal, lookupVal, h]
  | cons p rest ih =>
    obtain ⟨k', v'⟩ := p
    rw [setKeyVal]
    by_cases hk : k' = key
    · rw [if_pos hk, lookupVal, if_neg h, lookupVal, if_neg (hk ▸ h)]
    · rw [if_neg hk, lookupVal, lookupVal]
      by_cases hkk : k' = k
      · rw [if_pos hkk, if_pos hkk]
      · rw [if_neg hkk, if_neg hkk, ih]

/-- The value stored at a key by the merge step, as a function of the
base's value there (when present) and the override's value. -/
def mergeValueOpt : Option PyVal → PyVal → PyVal
  | Option.none, ov => deep_copy ov
  | some bv, ov => base_merge_value bv ov

/-- The per-key value `base_deep_merge` produces, as a function of the
base's and the override's value at that key. -/
def mergeLookupSpec (resultVal : Option PyVal) : Option PyVal → Option PyVal
  | Option.none => resultVal
  | some ov =>
    if pyIsNone ov then resultVal
    else some (mergeValueOpt resultVal ov)

theorem base_deep_merge_lookup (override : List (String × PyVal)) :
    ∀ (result : List (String × PyVal)) (k : String),
      (override.map Prod.fst).Nodup →
      lookupVal (base_deep_merge result override) k =
        mergeLookupSpec (lookupVal result k) (lookupVal override k) := by
  induction override with
  | nil =>
    intro result k _
    rw [base_deep_merge, lookupVal, mergeLookupSpec]
  | cons p rest ih =>
    obtain ⟨key, ov⟩ := p
    intro result k hnd
    rw [List.map_cons, List.nodup_cons] at hnd
    obtain ⟨hkey, hnd'⟩ := hnd
    rw [base_deep_merge]
    by_cases hn : pyIsNone ov = true
    · rw [if_pos hn, ih result k hnd', lookupVal]
      by_cases hk : key = k
      · rw [if_pos hk,
          lookupVal_eq_none_of_not_mem rest k (hk ▸ hkey),
          mergeLookupSpec, mergeLookupSpec, if_pos hn]
      · rw [if_neg hk]
    · rw [if_neg hn, ih _ k hnd', lookupVal]
      by_cases hk : key = k
      · subst hk
        rw [if_pos rfl, lookupVal_eq_none_of_not_mem rest key hkey,
          mergeLookupSpec, mergeLookupSpec, if_neg hn]
        cases hres : lookupVal result key with
        | none =>
          dsimp only [mergeValueOpt]
          rw [lookupVal_append_self _ _ _ hres]
        | some bv =>
          dsimp only [mergeValueOpt]
          rw [lookupVal_setKey_self]
      · rw [if_neg hk]
        have hstep :
            lookupVal
              (match lookupVal result key with
               | Option.none => result ++ [(key, deep_copy ov)]
               | some bv => setKeyVal result key (base_merge_value bv ov)) k =
            lookupVal result k := by
          cases hres : lookupVal result key with
          | none =>
            dsimp only
            exact lookupVal_append_other _ _ _ _ hk
          | some bv =>
            dsimp only
            exact lookupVal_setKey_other _ _ _ _ hk
        rw [hstep]

theorem agent_deep_merge_eq_base (r l : List (String × PyVal)) :
    agent_deep_merge r l = base_deep_merge r l := by
  refine agent_deep_merge.induct
    (fun bv ov => agent_merge_value bv ov = base_merge_value bv ov)
    (fun r l => agent_deep_merge r l = base_deep_merge r l)
    ?_ ?_ ?_ ?_ ?_ r l
  · intro bd od h
    rw [agent_merge_value, base_merge_value, h]
  · intro bv ov hne
    cases bv with
    | dict bd =>
      cases ov with
      | dict od => exact (hne bd od rfl rfl).elim
      | none => simp [agent_merge_value, base_merge_value]
      | bool b => simp [agent_merge_value, base_merge_value]
      | int n => simp [agent_merge_value, base_merge_value]
      | str s => simp [agent_merge_value, base_merge_value]
      | list xs => simp [agent_merge_value, base_merge_value]
    | none => simp [agent_merge_value, base_merge_value]
    | bool b => simp [agent_merge_value, base_merge_value]
    | int n => simp [agent_merge_value, base_merge_value]
    | str s => simp [agent_merge_value, base_merge_value]
    | list xs => simp [agent_merge_value, base_merge_value]
  · intro result
    rw [agent_deep_merge, base_deep_merge]
  · intro result key ov rest hn ih
    rw [agent_deep_merge, base_deep_merge, if_pos hn, if_pos hn, ih]
  · intro result key ov rest hn ihv ih
    rw [agent_deep_merge, base_deep_merge, if_neg hn, if_neg hn, ih]
    cases hres : lookupVal result key with
    | none => dsimp only
    | some bv =>
      dsimp only
      rw [ihv bv]

/-- C7: for override mappings (unique keys, as Python dicts ensure),
`_deep_merge` keeps the template's value for keys whose override value
is `None` (and for keys the override lacks), replaces a list-valued key
wholesale with the override's list, and merges dict-into-dict
recursively key by key; the two template managers' implementations
agree on every input. -/
theorem c7_deep_merge_semantics (base override : List (String × PyVal))
    (k : String) (hnd : (override.map Prod.fst).Nodup) :
    (lookupVal override k = some PyVal.none →
      lookupVal (base_deep_merge base override) k = lookupVal base k) ∧
    (lookupVal override k = Option.none →
      lookupVal (base_deep_merge base override) k = lookupVal base k) ∧
    (∀ xs, lookupVal override k = some (PyVal.list xs) →
      lookupVal (base_deep_merge base override) k = some (PyVal.list xs)) ∧
    (∀ bd od, lookupVal base k = some (PyVal.dict bd) →
      lookupVal override k = some (PyVal.dict od) →
      lookupVal (base_deep_merge base override) k =
        some (PyVal.dict (base_deep_merge bd od))) ∧
    (∀ (b o : List (String × PyVal)), agent_deep_merge b o = base_deep_merge b o) := by
  have hchar := base_deep_merge_lookup override base k hnd
  refine ⟨?_, ?_, ?_, ?_, agent_deep_merge_eq_base⟩
  · intro h
    rw [hchar, h, mergeLookupSpec]
    simp [pyIsNone]
  · intro h
    rw [hchar, h, mergeLookupSpec]
  · intro xs h
    rw [hchar, h, mergeLookupSpec, if_neg (by simp [pyIsNone])]
    cases hres : lookupVal base k with
    | none =>
      dsimp only [mergeValueOpt]
      rw [deep_copy_eq]
    | some bv =>
      dsimp only [mergeValueOpt]
      cases bv <;> simp [base_merge_value, deep_copy_eq]
  · intro bd od h1 h2
    rw [hchar, h2, mergeLookupSpec, if_neg (by simp [pyIsNone]), h1]
    dsimp only [mergeValueOpt]
    rw [base_merge_value]

/-- Witness for `c7_deep_merge_semantics`: dict-into-dict merge on a
concrete template and override. -/
theorem c7_deep_merge_semantics_witness :
    lookupVal
      (base_deep_merge
        [("a", PyVal.int 1), ("b", PyVal.dict [("x", PyVal.int 2)])]
        [("b", PyVal.dict [("y", PyVal.int 3)]), ("c", PyVal.none)]) "b" =
      some (PyVal.dict
        (base_deep_merge [("x", PyVal.int 2)] [("y", PyVal.int 3)])) :=
  (c7_deep_merge_semantics
    [("a", PyVal.int 1), ("b", PyVal.dict [("x", PyVal.int 2)])]
    [("b", PyVal.dict [("y", PyVal.int 3)]), ("c", PyVal.none)]
    "b" (by decide)).2.2.2.1
    [("x", PyVal.int 2)] [("y", PyVal.int 3)] rfl rfl

/-! ## `helpers.py` — timestamp parsing

`parse_timestamp`: normalize (`Z` → `+00:00`, truncate the fractional
part after the first `.` to 6 digits, re-attaching a `+`/`-` timezone
tail), then `datetime.fromisoformat`, falling back to "now" (a
parameter here) on falsy input, on the Go zero time literal, and on a
parse error.

`datetime.fromisoformat` is Python ≥ 3.11 standard-library behavior,
modelled on the grammar subset `YYYY-MM-DD` `<any one separator char>`
`HH:MM:SS` `[.digits]` `[Z | z | ±HH:MM]` (plus date-only input), with
calendar validation and Python's field ranges (year 1–9999, second ≤
59, offset hours ≤ 23); fractional digits beyond 6 are truncated, as
the 3.11 parser does.  Further ISO-8601 forms the stdlib accepts
(missing seconds, `±HH:MM:SS` offsets, …) are not RFC3339 date-times
and are rejected by the model; no theorem below depends on them. -/

/-- The result of `datetime.fromisoformat`: a naive or aware datetime.
`tzMinutes` is the UTC offset in minutes (`Z` ↦ 0), `none` when naive. -/
structure PyDatetime where
  year : Nat
  month : Nat
  day : Nat
  hour : Nat
  minute : Nat
  second : Nat
  microsecond : Nat
  tzMinutes : Option Int
  deriving DecidableEq, Repr

/-- Read exactly `n` ASCII digits, folding them onto `acc`. -/
def readDigitsAux : Nat → Nat → List Char → Option (Nat × List Char)
  | 0, acc, s => some (acc, s)
  | n + 1, acc, c :: s =>
    if c.isDigit then readDigitsAux n (acc * 10 + (c.toNat - '0'.toNat)) s
    else none
  | _ + 1, _, [] => none

def expectChar (c : Char) : List Char → Option (List Char)
  | x :: s => if x = c then some s else none
  | [] => none

def daysInMonth (year month : Nat) : Nat :=
  if month = 2 then
    if year % 4 = 0 ∧ (year % 100 ≠ 0 ∨ year % 400 = 0) then 29 else 28
  else if month = 4 ∨ month = 6 ∨ month = 9 ∨ month = 11 then 30
  else 31

/-- Parse a `±HH:MM` offset tail (after the sign character `c`),
with Python's offset bounds. -/
def parseNumOffset (c : Char) (rest : List Char) : Option (Option Int) :=
  match readDigitsAux 2 0 rest with
  | some (hh, rest2) =>
    match expectChar ':' rest2 with
    | some rest3 =>
      match readDigitsAux 2 0 rest3 with
      | some (mm, []) =>
        if hh ≤ 23 ∧ mm ≤ 59 then
          some (some (if c = '-' then -((hh * 60 + mm : Nat) : Int)
                      else ((hh * 60 + mm : Nat) : Int)))
        else none
      | _ => none
    | _ => none
  | _ => none

/-- Parse the timezone tail: empty (naive), a lone `Z`/`z` (UTC), or
`±HH:MM`.  Outer `none` is a parse error. -/
def parseTzPart : List Char → Option (Option Int)
  | [] => some Option.none
  | c :: rest =>
    if (c = 'Z' ∨ c = 'z') ∧ rest = [] then some (some 0)
    else if c = '+' ∨ c = '-' then parseNumOffset c rest
    else none

/-- Microseconds denoted by a fractional-digit run: the first six
digits, right-padded with zeros (digits beyond six are truncated). -/
def fracMicro (ds : List Char) : Nat :=
  digitsVal (ds.take 6 ++ List.replicate (6 - (ds.take 6).length) '0')

/-- Assemble and validate the parsed datetime (Python field ranges and
real-calendar day check). -/
def mkIso (year month day hour minute second micro : Nat)
    (rest : List Char) : Option PyDatetime :=
  match parseTzPart rest with
  | Option.none => none
  | some tz =>
    if 1 ≤ year ∧ year ≤ 9999 ∧ 1 ≤ month ∧ month ≤ 12 ∧
       1 ≤ day ∧ day ≤ daysInMonth year month ∧
       hour ≤ 23 ∧ minute ≤ 59 ∧ second ≤ 59 then
      some ⟨year, month, day, hour, minute, second, micro, tz⟩
    else none

/-- Fraction (at least one digit after `.`) and timezone tail. -/
def parseFracAndTz (year month day hour minute second : Nat) :
    List Char → Option PyDatetime
  | [] => mkIso year month day hour minute second 0 []
  | c :: rest =>
    if c = '.' then
      let fds := rest.takeWhile Char.isDigit
      if fds.isEmpty then none
      else mkIso year month day hour minute second (fracMicro fds)
        (rest.dropWhile Char.isDigit)
    else mkIso year month day hour minute second 0 (c :: rest)

/-- `datetime.fromisoformat` on the modelled grammar subset. -/
def pyFromIso (s : List Char) : Option PyDatetime :=
  match readDigitsAux 4 0 s with
  | Option.none => none
  | some (year, s1) =>
    match expectChar '-' s1 with
    | Option.none => none
    | some s2 =>
      match readDigitsAux 2 0 s2 with
      | Option.none => none
      | some (month, s3) =>
        match expectChar '-' s3 with
        | Option.none => none
        | some s4 =>
          match readDigitsAux 2 0 s4 with
          | Option.none => none
          | some (day, s5) =>
            match s5 with
            | [] => mkIso year month day 0 0 0 0 []
            | _sep :: s6 =>
              match readDigitsAux 2 0 s6 with
              | Option.none => none
              | some (hour, s7) =>
                match expectChar ':' s7 with
                | Option.none => none
                | some s8 =>
                  match readDigitsAux 2 0 s8 with
                  | Option.none => none
                  | some (minute, s9) =>
                    match expectChar ':' s9 with
                    | Option.none => none
                    | some s10 =>
                      match readDigitsAux 2 0 s10 with
                      | Option.none => none
                      | some (second, s11) =>
                        parseFracAndTz year month day hour minute second s11

/-- Python `rest.find(ch)` (index of first occurrence). -/
def pyFind (ch : Char) : List Char → Option Nat
  | [] => Option.none
  | x :: s => if x = ch then some 0 else (pyFind ch s).map (· + 1)

/-- The normalization step of `parse_timestamp`: rewrite a trailing `Z`
to `+00:00`; when a `.` is present, split at the first `.`, find the
timezone tail in the remainder (a `+` first, else a `-`), truncate the
fraction to six characters, and reassemble (dropping the `.` if the
truncated fraction is empty). -/
def normalize_split (ts1 : List Char) : List Char :=
  if ts1.contains '.' then
    let main := ts1.takeWhile (fun c => c ≠ '.')
    let rest := (ts1.dropWhile (fun c => c ≠ '.')).drop 1
    let ft :=
      match pyFind '+' rest with
      | some p => (rest.take p, rest.drop p)
      | Option.none =>
        match pyFind '-' rest with
        | some p => (rest.take p, rest.drop p)
        | Option.none => (rest, [])
    let frac6 := ft.1.take 6
    if frac6.isEmpty then main ++ ft.2 else main ++ '.' :: (frac6 ++ ft.2)
  else ts1

def normalize_timestamp (ts : List Char) : List Char :=
  normalize_split
    (if ts.getLast? = some 'Z' then ts.dropLast ++ "+00:00".toList else ts)

/-- `parse_timestamp` from helpers.py, with "now" as a parameter. -/
def parse_timestamp (now : PyDatetime) (timestamp : Option (List Char)) :
    PyDatetime :=
  match timestamp with
  | Option.none => now
  | some ts =>
    if ts.isEmpty ∨ ts = "0001-01-01T00:00:00Z".toList then now
    else
      match pyFromIso (normalize_timestamp ts) with
      | some dt => dt
      | Option.none => now

example (now : PyDatetime) :
    parse_timestamp now (some "2024-03-05T06:07:08.123456789+05:30".toList) =
    ⟨2024, 3, 5, 6, 7, 8, 123456, some 330⟩ := by
  rw [parse_timestamp, if_neg (by decide)]
  rfl
example (now : PyDatetime) :
    parse_timestamp now (some "2024-03-05T06:07:08Z".toList) =
    ⟨2024, 3, 5, 6, 7, 8, 0, some 0⟩ := by
  rw [parse_timestamp, if_neg (by decide)]
  rfl
example (now : PyDatetime) :
    parse_timestamp now (some "2024-03-05t06:07:08.5z".toList) =
    ⟨2024, 3, 5, 6, 7, 8, 500000, some 0⟩ := by
  rw [parse_timestamp, if_neg (by decide)]
  rfl
example (now : PyDatetime) :
    parse_timestamp now (some "2024-03-05T06:07:08.123456789z".toList) =
    ⟨2024, 3, 5, 6, 7, 8, 123456, Option.none⟩ := by
  rw [parse_timestamp, if_neg (by decide)]
  rfl
example (now : PyDatetime) :
    parse_timestamp now (some "0001-01-01T00:00:00Z".toList) = now := by
  rw [parse_timestamp, if_pos (by decide)]
example (now : PyDatetime) :
    parse_timestamp now (some "1990-12-31T23:59:60Z".toList) = now := by
  rw [parse_timestamp, if_neg (by decide)]
  rfl

/-! ### List traversal lemmas for the timestamp proofs -/

theorem takeWhile_append_all (p : Char → Bool) (a b : List Char)
    (ha : ∀ x ∈ a, p x = true) :
    (a ++ b).takeWhile p = a ++ b.takeWhile p := by
  induction a with
  | nil => simp
  | cons x xs ih =>
    rw [List.cons_append, List.takeWhile_cons, ha x (by simp), List.cons_append,
      ih (fun y hy => ha y (by simp [hy]))]
    rfl

theorem dropWhile_append_all (p : Char → Bool) (a b : List Char)
    (ha : ∀ x ∈ a, p x = true) :
    (a ++ b).dropWhile p = b.dropWhile p := by
  induction a with
  | nil => simp
  | cons x xs ih =>
    rw [List.cons_append, List.dropWhile_cons, ha x (by simp),
      ih (fun y hy => ha y (by simp [hy]))]
    simp

theorem takeWhile_eq_self_of_all (p : Char → Bool) (l : List Char)
    (h : ∀ x ∈ l, p x = true) : l.takeWhile p = l := by
  have := takeWhile_append_all p l [] h
  simpa using this

theorem dropWhile_eq_nil_of_all (p : Char → Bool) (l : List Char)
    (h : ∀ x ∈ l, p x = true) : l.dropWhile p = [] := by
  have := dropWhile_append_all p l [] h
  simpa using this

theorem takeWhile_cons_false (p : Char → Bool) (x : Char) (l : List Char)
    (h : p x = false) : (x :: l).takeWhile p = [] := by
  rw [List.takeWhile_cons, h]
  rfl

theorem dropWhile_cons_false (p : Char → Bool) (x : Char) (l : List Char)
    (h : p x = false) : (x :: l).dropWhile p = x :: l := by
  rw [List.dropWhile_cons, h]
  rfl

theorem pyFind_eq_none (ch : Char) (l : List Char) (h : ∀ x ∈ l, x ≠ ch) :
    pyFind ch l = Option.none := by
  induction l with
  | nil => rfl
  | cons x xs ih =>
    rw [pyFind, if_neg (h x (by simp)), ih (fun y hy => h y (by simp [hy]))]
    rfl

theorem pyFind_append_self (ch : Char) (a t : List Char)
    (ha : ∀ x ∈ a, x ≠ ch) :
    pyFind ch (a ++ ch :: t) = some a.length := by
  induction a with
  | nil => simp [pyFind]
  | cons x xs ih =>
    rw [List.cons_append, pyFind, if_neg (ha x (by simp)),
      ih (fun y hy => ha y (by simp [hy]))]
    simp

theorem contains_eq_false_of_all_ne (l : List Char) (ch : Char)
    (h : ∀ x ∈ l, x ≠ ch) : l.contains ch = false := by
  induction l with
  | nil => rfl
  | cons x xs ih =>
    have h1 : (ch == x) = false := by
      simp [Ne.symm (h x (by simp))]
    have h2 := ih (fun y hy => h y (by simp [hy]))
    simp only [List.contains_cons, h1, Bool.false_or]
    exact h2

theorem contains_eq_true_of_mem (l : List Char) (ch : Char) (h : ch ∈ l) :
    l.contains ch = true := by
  induction l with
  | nil => simp at h
  | cons x xs ih =>
    simp only [List.contains_cons]
    rcases List.mem_cons.mp h with h1 | h1
    · simp [h1]
    · rw [ih h1]
      simp

theorem ne_of_isDigit_of_not {c d : Char} (h : c.isDigit = true)
    (hd : d.isDigit = false) : c ≠ d := by
  intro e
  rw [e, hd] at h
  exact Bool.noConfusion h

/-! ### RFC3339 date-times, as rendered character strings

An RFC3339 `date-time` is quantified over its characters: the fixed
digit positions, the `T`/`t` separator, a fractional-digit run of
length 0–9, and the offset (`Z`, `z`, or `±HH:MM`). -/

inductive TZForm where
  | upperZ
  | lowerZ
  | num (plus : Bool) (oh1 oh2 om1 om2 : Char)
  deriving DecidableEq, Repr

structure RFC3339Chars where
  y1 : Char
  y2 : Char
  y3 : Char
  y4 : Char
  mo1 : Char
  mo2 : Char
  d1 : Char
  d2 : Char
  sep : Char
  h1 : Char
  h2 : Char
  mi1 : Char
  mi2 : Char
  s1 : Char
  s2 : Char
  frac : List Char
  off : TZForm
  deriving DecidableEq, Repr

def renderOff : TZForm → List Char
  | .upperZ => ['Z']
  | .lowerZ => ['z']
  | .num plus oh1 oh2 om1 om2 =>
      (if plus then '+' else '-') :: oh1 :: oh2 :: ':' :: om1 :: om2 :: []

def renderRFC (t : RFC3339Chars) : List Char :=
  t.y1 :: t.y2 :: t.y3 :: t.y4 :: '-' :: t.mo1 :: t.mo2 :: '-' :: t.d1 :: t.d2 ::
  t.sep :: t.h1 :: t.h2 :: ':' :: t.mi1 :: t.mi2 :: ':' :: t.s1 :: t.s2 ::
  ((if t.frac.isEmpty then [] else '.' :: t.frac) ++ renderOff t.off)

/-- Value of a digit character. -/
def dval (c : Char) : Nat := c.toNat - '0'.toNat

def val2 (a b : Char) : Nat := dval a * 10 + dval b

def val4 (a b c d : Char) : Nat :=
  ((dval a * 10 + dval b) * 10 + dval c) * 10 + dval d

def offValid : TZForm → Prop
  | .upperZ => True
  | .lowerZ => True
  | .num _ oh1 oh2 om1 om2 =>
      oh1.isDigit = true ∧ oh2.isDigit = true ∧
      om1.isDigit = true ∧ om2.isDigit = true ∧
      val2 oh1 oh2 ≤ 23 ∧ val2 om1 om2 ≤ 59

/-- The rendered characters form a valid RFC3339 date-time denoting an
instant representable by Python `datetime`: digit positions hold ASCII
digits, the separator is `T`/`t`, the fraction has 0–9 digits, fields
are in range (year 0001–9999, real-calendar day, second ≤ 59 — Python
`datetime` has no leap second), and a numeric offset is within
`±23:59`. -/
structure IsValidRFC3339 (t : RFC3339Chars) : Prop where
  hy1 : t.y1.isDigit = true
  hy2 : t.y2.isDigit = true
  hy3 : t.y3.isDigit = true
  hy4 : t.y4.isDigit = true
  hmo1 : t.mo1.isDigit = true
  hmo2 : t.mo2.isDigit = true
  hd1 : t.d1.isDigit = true
  hd2 : t.d2.isDigit = true
  hsep : t.sep = 'T' ∨ t.sep = 't'
  hh1 : t.h1.isDigit = true
  hh2 : t.h2.isDigit = true
  hmi1 : t.mi1.isDigit = true
  hmi2 : t.mi2.isDigit = true
  hs1 : t.s1.isDigit = true
  hs2 : t.s2.isDigit = true
  hfrac : ∀ x ∈ t.frac, x.isDigit = true
  hfraclen : t.frac.length ≤ 9
  hyearlo : 1 ≤ val4 t.y1 t.y2 t.y3 t.y4
  hyearhi : val4 t.y1 t.y2 t.y3 t.y4 ≤ 9999
  hmonthlo : 1 ≤ val2 t.mo1 t.mo2
  hmonthhi : val2 t.mo1 t.mo2 ≤ 12
  hdaylo : 1 ≤ val2 t.d1 t.d2
  hdayhi : val2 t.d1 t.d2 ≤
    daysInMonth (val4 t.y1 t.y2 t.y3 t.y4) (val2 t.mo1 t.mo2)
  hhour : val2 t.h1 t.h2 ≤ 23
  hminute : val2 t.mi1 t.mi2 ≤ 59
  hsecond : val2 t.s1 t.s2 ≤ 59
  hoff : offValid t.off

/-- The timezone `parse_timestamp` actually reports for a rendered
RFC3339 input: `Z` and `±HH:MM` survive normalization intact; a
lowercase `z` is only preserved when the fraction has at most five
digits — with six or more the `frac[:6]` truncation deletes the `z`
along with the excess digits, leaving a naive datetime. -/
def expectedTz (t : RFC3339Chars) : Option Int :=
  match t.off with
  | .upperZ => some 0
  | .lowerZ => if t.frac.length ≤ 5 then some 0 else Option.none
  | .num plus oh1 oh2 om1 om2 =>
      some (if plus then ((val2 oh1 oh2 * 60 + val2 om1 om2 : Nat) : Int)
            else -((val2 oh1 oh2 * 60 + val2 om1 om2 : Nat) : Int))

/-! ### Evaluation lemmas for `pyFromIso` on rendered inputs -/

theorem readDigitsAux_two (a b : Char) (s : List Char)
    (ha : a.isDigit = true) (hb : b.isDigit = true) :
    readDigitsAux 2 0 (a :: b :: s) = some (val2 a b, s) := by
  rw [readDigitsAux, if_pos ha, readDigitsAux, if_pos hb, readDigitsAux]
  have : (0 * 10 + (a.toNat - '0'.toNat)) * 10 + (b.toNat - '0'.toNat) =
      val2 a b := by
    simp [val2, dval]
  rw [this]

theorem readDigitsAux_four (a b c d : Char) (s : List Char)
    (ha : a.isDigit = true) (hb : b.isDigit = true)
    (hc : c.isDigit = true) (hd : d.isDigit = true) :
    readDigitsAux 4 0 (a :: b :: c :: d :: s) = some (val4 a b c d, s) := by
  rw [readDigitsAux, if_pos ha, readDigitsAux, if_pos hb, readDigitsAux,
    if_pos hc, readDigitsAux, if_pos hd, readDigitsAux]
  have : (((0 * 10 + (a.toNat - '0'.toNat)) * 10 + (b.toNat - '0'.toNat)) * 10 +
      (c.toNat - '0'.toNat)) * 10 + (d.toNat - '0'.toNat) = val4 a b c d := by
    simp [val4, dval]
  rw [this]

theorem expectChar_self (c : Char) (s : List Char) :
    expectChar c (c :: s) = some s := by
  rw [expectChar, if_pos rfl]

theorem parseTzPart_num (plus : Bool) (oh1 oh2 om1 om2 : Char)
    (h1 : oh1.isDigit = true) (h2 : oh2.isDigit = true)
    (h3 : om1.isDigit = true) (h4 : om2.isDigit = true)
    (hh : val2 oh1 oh2 ≤ 23) (hm : val2 om1 om2 ≤ 59) :
    parseTzPart ((if plus then '+' else '-') :: oh1 :: oh2 :: ':' :: om1 :: om2 :: []) =
      some (some (if plus then ((val2 oh1 oh2 * 60 + val2 om1 om2 : Nat) : Int)
                  else -((val2 oh1 oh2 * 60 + val2 om1 om2 : Nat) : Int))) := by
  have hnum : ∀ c : Char, (c = '-') = False → (c = '+' ∨ c = '-') →
      parseTzPart (c :: oh1 :: oh2 :: ':' :: om1 :: om2 :: []) =
        some (some ((val2 oh1 oh2 * 60 + val2 om1 om2 : Nat) : Int)) := by
    intro c hcm hcp
    rw [parseTzPart, if_neg (by simp), if_pos hcp, parseNumOffset,
      readDigitsAux_two oh1 oh2 _ h1 h2]
    dsimp only
    rw [expectChar_self]
    dsimp only
    rw [readDigitsAux_two om1 om2 _ h3 h4]
    dsimp only
    rw [if_pos ⟨hh, hm⟩]
    simp [hcm]
  have hnumneg : ∀ c : Char, (c = '-') = True → (c = '+' ∨ c = '-') →
      parseTzPart (c :: oh1 :: oh2 :: ':' :: om1 :: om2 :: []) =
        some (some (-((val2 oh1 oh2 * 60 + val2 om1 om2 : Nat) : Int))) := by
    intro c hcm hcp
    rw [parseTzPart, if_neg (by simp), if_pos hcp, parseNumOffset,
      readDigitsAux_two oh1 oh2 _ h1 h2]
    dsimp only
    rw [expectChar_self]
    dsimp only
    rw [readDigitsAux_two om1 om2 _ h3 h4]
    dsimp only
    rw [if_pos ⟨hh, hm⟩]
    simp [hcm]
  cases plus with
  | true => exact hnum '+' (by simp) (Or.inl rfl)
  | false => exact hnumneg '-' (by simp) (Or.inr rfl)

theorem mkIso_eval (year month day hour minute second micro : Nat)
    (rest : List Char) (tz : Option Int)
    (htz : parseTzPart rest = some tz)
    (hylo : 1 ≤ year) (hyhi : year ≤ 9999)
    (hmlo : 1 ≤ month) (hmhi : month ≤ 12)
    (hdlo : 1 ≤ day) (hdhi : day ≤ daysInMonth year month)
    (hh : hour ≤ 23) (hmi : minute ≤ 59) (hs : second ≤ 59) :
    mkIso year month day hour minute second micro rest =
      some ⟨year, month, day, hour, minute, second, micro, tz⟩ := by
  simp only [mkIso, htz]
  rw [if_pos ⟨hylo, hyhi, hmlo, hmhi, hdlo, hdhi, hh, hmi, hs⟩]

theorem parseFracAndTz_dot (year month day hour minute second : Nat)
    (fds tzp : List Char) (hfds : ∀ x ∈ fds, x.isDigit = true)
    (hne : fds ≠ [])
    (htzp : tzp = [] ∨ ∃ c r, tzp = c :: r ∧ c.isDigit = false) :
    parseFracAndTz year month day hour minute second ('.' :: (fds ++ tzp)) =
      mkIso year month day hour minute second (fracMicro fds) tzp := by
  have htake : (fds ++ tzp).takeWhile Char.isDigit = fds := by
    rw [takeWhile_append_all Char.isDigit fds tzp hfds]
    rcases htzp with h | ⟨c, r, h, hc⟩
    · simp [h]
    · rw [h, takeWhile_cons_false Char.isDigit c r hc]
      simp
  have hdrop : (fds ++ tzp).dropWhile Char.isDigit = tzp := by
    rw [dropWhile_append_all Char.isDigit fds tzp hfds]
    rcases htzp with h | ⟨c, r, h, hc⟩
    · simp [h]
    · rw [h, dropWhile_cons_false Char.isDigit c r hc]
  rw [parseFracAndTz, if_pos rfl]
  rw [htake, hdrop, if_neg (by simpa using hne)]

theorem parseFracAndTz_nodot (year month day hour minute second : Nat)
    (tzp : List Char)
    (htzp : tzp = [] ∨ ∃ c r, tzp = c :: r ∧ c ≠ '.') :
    parseFracAndTz year month day hour minute second tzp =
      mkIso year month day hour minute second 0 tzp := by
  rcases htzp with h | ⟨c, r, h, hc⟩
  · subst h
    rfl
  · subst h
    rw [parseFracAndTz, if_neg hc]

theorem pyFromIso_render (y1 y2 y3 y4 mo1 mo2 d1 d2 sep h1 h2 mi1 mi2 s1 s2 : Char)
    (tail : List Char)
    (hy1 : y1.isDigit = true) (hy2 : y2.isDigit = true)
    (hy3 : y3.isDigit = true) (hy4 : y4.isDigit = true)
    (hmo1 : mo1.isDigit = true) (hmo2 : mo2.isDigit = true)
    (hd1 : d1.isDigit = true) (hd2 : d2.isDigit = true)
    (hh1 : h1.isDigit = true) (hh2 : h2.isDigit = true)
    (hmi1 : mi1.isDigit = true) (hmi2 : mi2.isDigit = true)
    (hs1 : s1.isDigit = true) (hs2 : s2.isDigit = true) :
    pyFromIso (y1 :: y2 :: y3 :: y4 :: '-' :: mo1 :: mo2 :: '-' :: d1 :: d2 :: sep ::
      h1 :: h2 :: ':' :: mi1 :: mi2 :: ':' :: s1 :: s2 :: tail) =
    parseFracAndTz (val4 y1 y2 y3 y4) (val2 mo1 mo2) (val2 d1 d2)
      (val2 h1 h2) (val2 mi1 mi2) (val2 s1 s2) tail := by
  rw [pyFromIso]
  rw [readDigitsAux_four y1 y2 y3 y4 _ hy1 hy2 hy3 hy4]
  simp only [expectChar_self,
    readDigitsAux_two mo1 mo2 _ hmo1 hmo2,
    readDigitsAux_two d1 d2 _ hd1 hd2,
    readDigitsAux_two h1 h2 _ hh1 hh2,
    readDigitsAux_two mi1 mi2 _ hmi1 hmi2,
    readDigitsAux_two s1 s2 _ hs1 hs2]

/-! ### Evaluation lemmas for `normalize_timestamp` on rendered inputs -/

theorem zstep_of_ne_Z (ts : List Char) (hz : ts.getLast? ≠ some 'Z') :
    (if ts.getLast? = some 'Z' then ts.dropLast ++ "+00:00".toList else ts) = ts :=
  if_neg hz

theorem zstep_of_concat_Z (a : List Char) :
    (if (a ++ ['Z']).getLast? = some 'Z' then
      (a ++ ['Z']).dropLast ++ "+00:00".toList else a ++ ['Z']) =
    a ++ "+00:00".toList := by
  rw [List.getLast?_concat, List.dropLast_concat, if_pos rfl]

theorem normalize_split_nodot (ts1 : List Char)
    (hd : ts1.contains '.' = false) : normalize_split ts1 = ts1 := by
  rw [normalize_split]
  rw [if_neg (fun hcon => by rw [hd] at hcon; exact Bool.noConfusion hcon)]

/-- The `.`-splitting branch: with a dot-free `main`, a nonempty
fraction, and the `+`/`-` scan landing exactly at the fraction's end,
the fraction is truncated to six characters and the pieces are
reassembled. -/
theorem normalize_split_dot (main frac tzp : List Char)
    (hmain : ∀ x ∈ main, x ≠ '.')
    (hne : frac ≠ [])
    (hft : pyFind '+' (frac ++ tzp) = some frac.length ∨
           (pyFind '+' (frac ++ tzp) = Option.none ∧
            pyFind '-' (frac ++ tzp) = some frac.length) ∨
           (pyFind '+' (frac ++ tzp) = Option.none ∧
            pyFind '-' (frac ++ tzp) = Option.none ∧ tzp = [])) :
    normalize_split (main ++ '.' :: (frac ++ tzp)) =
      main ++ '.' :: (frac.take 6 ++ tzp) := by
  have hmainp : ∀ x ∈ main, (fun c => decide (¬ c = '.')) x = true := by
    intro x hx
    simp [hmain x hx]
  have hcontains : (main ++ '.' :: (frac ++ tzp)).contains '.' = true :=
    contains_eq_true_of_mem _ _ (by simp)
  have htake : (main ++ '.' :: (frac ++ tzp)).takeWhile
      (fun c => decide (¬ c = '.')) = main := by
    rw [takeWhile_append_all _ main _ hmainp,
      takeWhile_cons_false _ '.' _ (by simp)]
    simp
  have hdrop : ((main ++ '.' :: (frac ++ tzp)).dropWhile
      (fun c => decide (¬ c = '.'))).drop 1 = frac ++ tzp := by
    rw [dropWhile_append_all _ main _ hmainp,
      dropWhile_cons_false _ '.' _ (by simp)]
    simp
  have htk6 : (frac ++ tzp).take frac.length = frac := List.take_left frac tzp
  have hdp : (frac ++ tzp).drop frac.length = tzp := List.drop_left frac tzp
  have hne6 : ¬ (frac.take 6).isEmpty = true := by
    cases frac with
    | nil => exact absurd rfl hne
    | cons x xs => simp [List.take]
  rw [normalize_split]
  rw [if_pos hcontains]
  simp only [htake, hdrop]
  rcases hft with h | ⟨h1, h2⟩ | ⟨h1, h2, h3⟩
  · rw [h]
    simp only [htk6, hdp]
    rw [if_neg hne6]
  · rw [h1, h2]
    simp only [htk6, hdp]
    rw [if_neg hne6]
  · subst h3
    simp only [List.append_nil] at h1 h2 ⊢
    rw [h1, h2]
    rw [if_neg hne6]
    dsimp only
    simp

/-- The `.`-splitting branch when the remainder holds no `+` or `-` at
all: the whole remainder is treated as the fraction and truncated to
six characters, with nothing re-attached after it. -/
theorem normalize_split_dot_nofind (main rest : List Char)
    (hmain : ∀ x ∈ main, x ≠ '.')
    (hne : rest ≠ [])
    (h1 : pyFind '+' rest = Option.none)
    (h2 : pyFind '-' rest = Option.none) :
    normalize_split (main ++ '.' :: rest) = main ++ '.' :: rest.take 6 := by
  have hmainp : ∀ x ∈ main, (fun c => decide (¬ c = '.')) x = true := by
    intro x hx
    simp [hmain x hx]
  have hcontains : (main ++ '.' :: rest).contains '.' = true :=
    contains_eq_true_of_mem _ _ (by simp)
  have htake : (main ++ '.' :: rest).takeWhile
      (fun c => decide (¬ c = '.')) = main := by
    rw [takeWhile_append_all _ main _ hmainp,
      takeWhile_cons_false _ '.' _ (by simp)]
    simp
  have hdrop : ((main ++ '.' :: rest).dropWhile
      (fun c => decide (¬ c = '.'))).drop 1 = rest := by
    rw [dropWhile_append_all _ main _ hmainp,
      dropWhile_cons_false _ '.' _ (by simp)]
    simp
  have hne6 : ¬ (rest.take 6).isEmpty = true := by
    cases rest with
    | nil => exact absurd rfl hne
    | cons x xs => simp [List.take]
  rw [normalize_split]
  rw [if_pos hcontains]
  simp only [htake, hdrop]
  rw [h1, h2]
  rw [if_neg hne6]
  dsimp only
  simp

theorem getLast?_append_cons (a : List Char) (x : Char) (r : List Char) :
    (a ++ x :: r).getLast? = (x :: r).getLast? := by
  induction a with
  | nil => rfl
  | cons y ys ih =>
    calc (y :: ys ++ x :: r).getLast?
        = (ys ++ x :: r).getLast? := by
          cases hys : ys ++ x :: r with
          | nil => exact absurd hys (by simp)
          | cons z zs =>
            rw [List.cons_append, hys]
            rfl
      _ = (x :: r).getLast? := ih

theorem fracMicro_take6 (l : List Char) : fracMicro (l.take 6) = fracMicro l := by
  rw [fracMicro, fracMicro, List.take_take]
  norm_num

theorem take6_ne_nil (l : List Char) (h : l ≠ []) : l.take 6 ≠ [] := by
  cases l with
  | nil => exact absurd rfl h
  | cons x xs => simp [List.take]


set_option maxHeartbeats 4000000 in
theorem c9_render_parse (now : PyDatetime) (t : RFC3339Chars)
    (hv : IsValidRFC3339 t)
    (hne : renderRFC t ≠ "0001-01-01T00:00:00Z".toList) :
    parse_timestamp now (some (renderRFC t)) =
      { year := val4 t.y1 t.y2 t.y3 t.y4
        month := val2 t.mo1 t.mo2
        day := val2 t.d1 t.d2
        hour := val2 t.h1 t.h2
        minute := val2 t.mi1 t.mi2
        second := val2 t.s1 t.s2
        microsecond := fracMicro t.frac
        tzMinutes := expectedTz t } := by
  obtain ⟨y1, y2, y3, y4, mo1, mo2, d1, d2, sep, h1, h2, mi1, mi2, s1, s2, frac, off⟩ := t
  obtain ⟨hy1, hy2, hy3, hy4, hmo1, hmo2, hd1, hd2, hsep, hh1, hh2, hmi1, hmi2, hs1, hs2,
    hfracd, hfraclen, hylo, hyhi, hmlo, hmhi, hdlo, hdhi, hhour, hminute, hsecond, hoff⟩ := hv
  dsimp only at *
  have hmain : ∀ x ∈ ([y1, y2, y3, y4, '-', mo1, mo2, '-', d1, d2, sep, h1, h2, ':', mi1, mi2, ':', s1, s2] : List Char), x ≠ '.' := by
    intro x hx
    simp only [List.mem_cons, List.not_mem_nil, or_false] at hx
    rcases hx with rfl|rfl|rfl|rfl|rfl|rfl|rfl|rfl|rfl|rfl|rfl|rfl|rfl|rfl|rfl|rfl|rfl|rfl|rfl <;>
      first
        | decide
        | exact ne_of_isDigit_of_not (by assumption) (by decide)
        | rcases hsep with h | h <;> subst h <;> decide
  have hfrac_ne_plus : ∀ x ∈ frac, x ≠ '+' :=
    fun x hx => ne_of_isDigit_of_not (hfracd x hx) (by decide)
  have hfrac_ne_minus : ∀ x ∈ frac, x ≠ '-' :=
    fun x hx => ne_of_isDigit_of_not (hfracd x hx) (by decide)
  have htake6d : ∀ x ∈ frac.take 6, x.isDigit = true :=
    fun x hx => hfracd x (List.take_subset 6 frac hx)
  cases off with
  | upperZ =>
    by_cases hfe : frac = []
    · subst hfe
      have hrender : renderRFC ⟨y1, y2, y3, y4, mo1, mo2, d1, d2, sep, h1, h2, mi1, mi2, s1, s2, [], TZForm.upperZ⟩ =
          ([y1, y2, y3, y4, '-', mo1, mo2, '-', d1, d2, sep, h1, h2, ':', mi1, mi2, ':', s1, s2] : List Char) ++ ['Z'] := rfl
      rw [parse_timestamp]
      rw [if_neg (by
        rintro (h | h)
        · rw [hrender] at h
          simp at h
        · exact hne h)]
      rw [hrender, normalize_timestamp, zstep_of_concat_Z]
      rw [normalize_split_nodot _ (contains_eq_false_of_all_ne _ _ (by
        intro x hx
        rcases List.mem_append.mp hx with h | h
        · exact hmain x h
        · simp only [show ("+00:00".toList : List Char) =
            ['+', '0', '0', ':', '0', '0'] from rfl,
            List.mem_cons, List.not_mem_nil, or_false] at h
          rcases h with rfl|rfl|rfl|rfl|rfl|rfl <;> decide))]
      rw [show ("+00:00".toList : List Char) = '+' :: ['0', '0', ':', '0', '0'] from rfl]
      simp only [List.cons_append, List.nil_append]
      rw [pyFromIso_render y1 y2 y3 y4 mo1 mo2 d1 d2 sep h1 h2 mi1 mi2 s1 s2 _
        hy1 hy2 hy3 hy4 hmo1 hmo2 hd1 hd2 hh1 hh2 hmi1 hmi2 hs1 hs2]
      rw [parseFracAndTz_nodot _ _ _ _ _ _ _
        (Or.inr ⟨'+', ['0', '0', ':', '0', '0'], rfl, by decide⟩)]
      rw [mkIso_eval _ _ _ _ _ _ _ _ (some 0) (by decide)
        hylo hyhi hmlo hmhi hdlo hdhi hhour hminute hsecond]
      rfl
    · have hfeb : frac.isEmpty = false := by
        cases frac with
        | nil => exact absurd rfl hfe
        | cons a l => rfl
      have hrender : renderRFC ⟨y1, y2, y3, y4, mo1, mo2, d1, d2, sep, h1, h2, mi1, mi2, s1, s2, frac, TZForm.upperZ⟩ =
          ([y1, y2, y3, y4, '-', mo1, mo2, '-', d1, d2, sep, h1, h2, ':', mi1, mi2, ':', s1, s2] : List Char) ++ '.' :: (frac ++ ['Z']) := by
        simp [renderRFC, renderOff, hfeb]
      rw [parse_timestamp]
      rw [if_neg (by
        rintro (h | h)
        · rw [hrender] at h
          simp at h
        · exact hne h)]
      rw [hrender, normalize_timestamp]
      rw [show (([y1, y2, y3, y4, '-', mo1, mo2, '-', d1, d2, sep, h1, h2, ':', mi1, mi2, ':', s1, s2] : List Char) ++ '.' :: (frac ++ ['Z'])) =
        (([y1, y2, y3, y4, '-', mo1, mo2, '-', d1, d2, sep, h1, h2, ':', mi1, mi2, ':', s1, s2] : List Char) ++ '.' :: frac) ++ ['Z'] from by simp]
      rw [zstep_of_concat_Z]
      rw [show ((([y1, y2, y3, y4, '-', mo1, mo2, '-', d1, d2, sep, h1, h2, ':', mi1, mi2, ':', s1, s2] : List Char) ++ '.' :: frac) ++ "+00:00".toList) =
        ([y1, y2, y3, y4, '-', mo1, mo2, '-', d1, d2, sep, h1, h2, ':', mi1, mi2, ':', s1, s2] : List Char) ++ '.' :: (frac ++ '+' :: ['0', '0', ':', '0', '0']) from by simp]
      rw [normalize_split_dot _ _ _ hmain hfe
        (Or.inl (pyFind_append_self '+' frac _ hfrac_ne_plus))]
      simp only [List.cons_append, List.nil_append]
      rw [pyFromIso_render y1 y2 y3 y4 mo1 mo2 d1 d2 sep h1 h2 mi1 mi2 s1 s2 _
        hy1 hy2 hy3 hy4 hmo1 hmo2 hd1 hd2 hh1 hh2 hmi1 hmi2 hs1 hs2]
      rw [parseFracAndTz_dot _ _ _ _ _ _ _ _ htake6d (take6_ne_nil frac hfe)
        (Or.inr ⟨'+', ['0', '0', ':', '0', '0'], rfl, by decide⟩)]
      rw [fracMicro_take6]
      rw [mkIso_eval _ _ _ _ _ _ _ _ (some 0) (by decide)
        hylo hyhi hmlo hmhi hdlo hdhi hhour hminute hsecond]
      rfl
  | lowerZ =>
    by_cases hfe : frac = []
    · subst hfe
      have hrender : renderRFC ⟨y1, y2, y3, y4, mo1, mo2, d1, d2, sep, h1, h2, mi1, mi2, s1, s2, [], TZForm.lowerZ⟩ =
          ([y1, y2, y3, y4, '-', mo1, mo2, '-', d1, d2, sep, h1, h2, ':', mi1, mi2, ':', s1, s2] : List Char) ++ 'z' :: [] := rfl
      rw [parse_timestamp]
      rw [if_neg (by
        rintro (h | h)
        · rw [hrender] at h
          simp at h
        · exact hne h)]
      rw [hrender, normalize_timestamp]
      rw [zstep_of_ne_Z _ (by
        rw [getLast?_append_cons]
        decide)]
      rw [normalize_split_nodot _ (contains_eq_false_of_all_ne _ _ (by
        intro x hx
        rcases List.mem_append.mp hx with h | h
        · exact hmain x h
        · simp only [List.mem_cons, List.not_mem_nil, or_false] at h
          subst h
          decide))]
      simp only [List.cons_append, List.nil_append]
      rw [pyFromIso_render y1 y2 y3 y4 mo1 mo2 d1 d2 sep h1 h2 mi1 mi2 s1 s2 _
        hy1 hy2 hy3 hy4 hmo1 hmo2 hd1 hd2 hh1 hh2 hmi1 hmi2 hs1 hs2]
      rw [parseFracAndTz_nodot _ _ _ _ _ _ _
        (Or.inr ⟨'z', [], rfl, by decide⟩)]
      rw [mkIso_eval _ _ _ _ _ _ _ _ (some 0) (by decide)
        hylo hyhi hmlo hmhi hdlo hdhi hhour hminute hsecond]
      rfl
    · have hfeb : frac.isEmpty = false := by
        cases frac with
        | nil => exact absurd rfl hfe
        | cons a l => rfl
      have hrender : renderRFC ⟨y1, y2, y3, y4, mo1, mo2, d1, d2, sep, h1, h2, mi1, mi2, s1, s2, frac, TZForm.lowerZ⟩ =
          ([y1, y2, y3, y4, '-', mo1, mo2, '-', d1, d2, sep, h1, h2, ':', mi1, mi2, ':', s1, s2] : List Char) ++ '.' :: (frac ++ ['z']) := by
        simp [renderRFC, renderOff, hfeb]
      rw [parse_timestamp]
      rw [if_neg (by
        rintro (h | h)
        · rw [hrender] at h
          simp at h
        · exact hne h)]
      rw [hrender, normalize_timestamp]
      rw [zstep_of_ne_Z _ (by
        rw [show (([y1, y2, y3, y4, '-', mo1, mo2, '-', d1, d2, sep, h1, h2, ':', mi1, mi2, ':', s1, s2] : List Char) ++ '.' :: (frac ++ ['z'])) =
          (([y1, y2, y3, y4, '-', mo1, mo2, '-', d1, d2, sep, h1, h2, ':', mi1, mi2, ':', s1, s2] : List Char) ++ '.' :: frac) ++ 'z' :: [] from by simp]
        rw [getLast?_append_cons]
        decide)]
      rw [normalize_split_dot_nofind _ _ hmain
        (fun hcon => by simp at hcon)
        (pyFind_eq_none _ _ (by
          intro x hx
          rcases List.mem_append.mp hx with h | h
          · exact hfrac_ne_plus x h
          · simp only [List.mem_cons, List.not_mem_nil, or_false] at h
            subst h
            decide))
        (pyFind_eq_none _ _ (by
          intro x hx
          rcases List.mem_append.mp hx with h | h
          · exact hfrac_ne_minus x h
          · simp only [List.mem_cons, List.not_mem_nil, or_false] at h
            subst h
            decide))]
      by_cases hlen : frac.length ≤ 5
      · rw [show (frac ++ ['z']).take 6 = frac ++ ['z'] from
          List.take_of_length_le (by simp
                                     omega)]
        simp only [List.cons_append, List.nil_append]
        rw [pyFromIso_render y1 y2 y3 y4 mo1 mo2 d1 d2 sep h1 h2 mi1 mi2 s1 s2 _
          hy1 hy2 hy3 hy4 hmo1 hmo2 hd1 hd2 hh1 hh2 hmi1 hmi2 hs1 hs2]
        rw [parseFracAndTz_dot _ _ _ _ _ _ _ _ hfracd hfe
          (Or.inr ⟨'z', [], rfl, by decide⟩)]
        rw [mkIso_eval _ _ _ _ _ _ _ _ (some 0) (by decide)
          hylo hyhi hmlo hmhi hdlo hdhi hhour hminute hsecond]
        rw [show expectedTz ⟨y1, y2, y3, y4, mo1, mo2, d1, d2, sep, h1, h2, mi1, mi2, s1, s2, frac, TZForm.lowerZ⟩ = some 0 from by
          simp [expectedTz, hlen]]
      · rw [show (frac ++ ['z']).take 6 = frac.take 6 from by
          rw [List.take_append_of_le_length (by omega)]]
        simp only [List.cons_append, List.nil_append]
        rw [pyFromIso_render y1 y2 y3 y4 mo1 mo2 d1 d2 sep h1 h2 mi1 mi2 s1 s2 _
          hy1 hy2 hy3 hy4 hmo1 hmo2 hd1 hd2 hh1 hh2 hmi1 hmi2 hs1 hs2]
        rw [show ('.' :: List.take 6 frac : List Char) =
          '.' :: (List.take 6 frac ++ []) from by simp]
        rw [parseFracAndTz_dot _ _ _ _ _ _ _ _ htake6d (take6_ne_nil frac hfe)
          (Or.inl rfl)]
        rw [fracMicro_take6]
        rw [mkIso_eval _ _ _ _ _ _ _ [] Option.none rfl
          hylo hyhi hmlo hmhi hdlo hdhi hhour hminute hsecond]
        rw [show expectedTz ⟨y1, y2, y3, y4, mo1, mo2, d1, d2, sep, h1, h2, mi1, mi2, s1, s2, frac, TZForm.lowerZ⟩ = Option.none from by
          simp [expectedTz, hlen]]
  | num plus oh1 oh2 om1 om2 =>
    dsimp only [offValid] at hoff
    obtain ⟨ho1, ho2, ho3, ho4, hoh, hom⟩ := hoff
    cases plus with
    | true =>
      have htz2 : parseTzPart ('+' :: oh1 :: oh2 :: ':' :: om1 :: om2 :: []) =
          some (some ((val2 oh1 oh2 * 60 + val2 om1 om2 : Nat) : Int)) :=
        parseTzPart_num true oh1 oh2 om1 om2 ho1 ho2 ho3 ho4 hoh hom
      by_cases hfe : frac = []
      · subst hfe
        have hrender : renderRFC ⟨y1, y2, y3, y4, mo1, mo2, d1, d2, sep, h1, h2, mi1, mi2, s1, s2, [], TZForm.num true oh1 oh2 om1 om2⟩ =
            ([y1, y2, y3, y4, '-', mo1, mo2, '-', d1, d2, sep, h1, h2, ':', mi1, mi2, ':', s1, s2] : List Char) ++ '+' :: oh1 :: oh2 :: ':' :: om1 :: om2 :: [] := rfl
        rw [parse_timestamp]
        rw [if_neg (by
          rintro (h | h)
          · rw [hrender] at h
            simp at h
          · exact hne h)]
        rw [hrender, normalize_timestamp]
        rw [zstep_of_ne_Z _ (by
          rw [show (([y1, y2, y3, y4, '-', mo1, mo2, '-', d1, d2, sep, h1, h2, ':', mi1, mi2, ':', s1, s2] : List Char) ++ '+' :: oh1 :: oh2 :: ':' :: om1 :: om2 :: []) =
            (([y1, y2, y3, y4, '-', mo1, mo2, '-', d1, d2, sep, h1, h2, ':', mi1, mi2, ':', s1, s2] : List Char) ++ '+' :: oh1 :: oh2 :: ':' :: om1 :: []) ++ om2 :: []
            from by simp]
          rw [getLast?_append_cons]
          exact fun hcon =>
            ne_of_isDigit_of_not ho4 (by decide) (Option.some.inj hcon))]
        rw [normalize_split_nodot _ (contains_eq_false_of_all_ne _ _ (by
          intro x hx
          rcases List.mem_append.mp hx with h | h
          · exact hmain x h
          · simp only [List.mem_cons, List.not_mem_nil, or_false] at h
            rcases h with rfl|rfl|rfl|rfl|rfl|rfl
            · decide
            · exact ne_of_isDigit_of_not ho1 (by decide)
            · exact ne_of_isDigit_of_not ho2 (by decide)
            · decide
            · exact ne_of_isDigit_of_not ho3 (by decide)
            · exact ne_of_isDigit_of_not ho4 (by decide)))]
        simp only [List.cons_append, List.nil_append]
        rw [pyFromIso_render y1 y2 y3 y4 mo1 mo2 d1 d2 sep h1 h2 mi1 mi2 s1 s2 _
          hy1 hy2 hy3 hy4 hmo1 hmo2 hd1 hd2 hh1 hh2 hmi1 hmi2 hs1 hs2]
        rw [parseFracAndTz_nodot _ _ _ _ _ _ _
          (Or.inr ⟨'+', oh1 :: oh2 :: ':' :: om1 :: om2 :: [], rfl, by decide⟩)]
        rw [mkIso_eval _ _ _ _ _ _ _ _ (some ((val2 oh1 oh2 * 60 + val2 om1 om2 : Nat) : Int)) htz2
          hylo hyhi hmlo hmhi hdlo hdhi hhour hminute hsecond]
        rfl
      · have hfeb : frac.isEmpty = false := by
          cases frac with
          | nil => exact absurd rfl hfe
          | cons a l => rfl
        have hrender : renderRFC ⟨y1, y2, y3, y4, mo1, mo2, d1, d2, sep, h1, h2, mi1, mi2, s1, s2, frac, TZForm.num true oh1 oh2 om1 om2⟩ =
            ([y1, y2, y3, y4, '-', mo1, mo2, '-', d1, d2, sep, h1, h2, ':', mi1, mi2, ':', s1, s2] : List Char) ++
              '.' :: (frac ++ '+' :: oh1 :: oh2 :: ':' :: om1 :: om2 :: []) := by
          simp [renderRFC, renderOff, hfeb]
        rw [parse_timestamp]
        rw [if_neg (by
          rintro (h | h)
          · rw [hrender] at h
            simp at h
          · exact hne h)]
        rw [hrender, normalize_timestamp]
        rw [zstep_of_ne_Z _ (by
          rw [show (([y1, y2, y3, y4, '-', mo1, mo2, '-', d1, d2, sep, h1, h2, ':', mi1, mi2, ':', s1, s2] : List Char) ++
              '.' :: (frac ++ '+' :: oh1 :: oh2 :: ':' :: om1 :: om2 :: [])) =
            (([y1, y2, y3, y4, '-', mo1, mo2, '-', d1, d2, sep, h1, h2, ':', mi1, mi2, ':', s1, s2] : List Char) ++
              '.' :: (frac ++ '+' :: oh1 :: oh2 :: ':' :: om1 :: [])) ++ om2 :: []
            from by simp]
          rw [getLast?_append_cons]
          exact fun hcon =>
            ne_of_isDigit_of_not ho4 (by decide) (Option.some.inj hcon))]
        rw [normalize_split_dot _ _ _ hmain hfe
          (Or.inl (pyFind_append_self '+' frac _ hfrac_ne_plus))]
        simp only [List.cons_append, List.nil_append]
        rw [pyFromIso_render y1 y2 y3 y4 mo1 mo2 d1 d2 sep h1 h2 mi1 mi2 s1 s2 _
          hy1 hy2 hy3 hy4 hmo1 hmo2 hd1 hd2 hh1 hh2 hmi1 hmi2 hs1 hs2]
        rw [parseFracAndTz_dot _ _ _ _ _ _ _ _ htake6d (take6_ne_nil frac hfe)
          (Or.inr ⟨'+', oh1 :: oh2 :: ':' :: om1 :: om2 :: [], rfl, by decide⟩)]
        rw [fracMicro_take6]
        rw [mkIso_eval _ _ _ _ _ _ _ _ (some ((val2 oh1 oh2 * 60 + val2 om1 om2 : Nat) : Int)) htz2
          hylo hyhi hmlo hmhi hdlo hdhi hhour hminute hsecond]
        rfl
    | false =>
      have htz2 : parseTzPart ('-' :: oh1 :: oh2 :: ':' :: om1 :: om2 :: []) =
          some (some (-((val2 oh1 oh2 * 60 + val2 om1 om2 : Nat) : Int))) :=
        parseTzPart_num false oh1 oh2 om1 om2 ho1 ho2 ho3 ho4 hoh hom
      by_cases hfe : frac = []
      · subst hfe
        have hrender : renderRFC ⟨y1, y2, y3, y4, mo1, mo2, d1, d2, sep, h1, h2, mi1, mi2, s1, s2, [], TZForm.num false oh1 oh2 om1 om2⟩ =
            ([y1, y2, y3, y4, '-', mo1, mo2, '-', d1, d2, sep, h1, h2, ':', mi1, mi2, ':', s1, s2] : List Char) ++ '-' :: oh1 :: oh2 :: ':' :: om1 :: om2 :: [] := rfl
        rw [parse_timestamp]
        rw [if_neg (by
          rintro (h | h)
          · rw [hrender] at h
            simp at h
          · exact hne h)]
        rw [hrender, normalize_timestamp]
        rw [zstep_of_ne_Z _ (by
          rw [show (([y1, y2, y3, y4, '-', mo1, mo2, '-', d1, d2, sep, h1, h2, ':', mi1, mi2, ':', s1, s2] : List Char) ++ '-' :: oh1 :: oh2 :: ':' :: om1 :: om2 :: []) =
            (([y1, y2, y3, y4, '-', mo1, mo2, '-', d1, d2, sep, h1, h2, ':', mi1, mi2, ':', s1, s2] : List Char) ++ '-' :: oh1 :: oh2 :: ':' :: om1 :: []) ++ om2 :: []
            from by simp]
          rw [getLast?_append_cons]
          exact fun hcon =>
            ne_of_isDigit_of_not ho4 (by decide) (Option.some.inj hcon))]
        rw [normalize_split_nodot _ (contains_eq_false_of_all_ne _ _ (by
          intro x hx
          rcases List.mem_append.mp hx with h | h
          · exact hmain x h
          · simp only [List.mem_cons, List.not_mem_nil, or_false] at h
            rcases h with rfl|rfl|rfl|rfl|rfl|rfl
            · decide
            · exact ne_of_isDigit_of_not ho1 (by decide)
            · exact ne_of_isDigit_of_not ho2 (by decide)
            · decide
            · exact ne_of_isDigit_of_not ho3 (by decide)
            · exact ne_of_isDigit_of_not ho4 (by decide)))]
        simp only [List.cons_append, List.nil_append]
        rw [pyFromIso_render y1 y2 y3 y4 mo1 mo2 d1 d2 sep h1 h2 mi1 mi2 s1 s2 _
          hy1 hy2 hy3 hy4 hmo1 hmo2 hd1 hd2 hh1 hh2 hmi1 hmi2 hs1 hs2]
        rw [parseFracAndTz_nodot _ _ _ _ _ _ _
          (Or.inr ⟨'-', oh1 :: oh2 :: ':' :: om1 :: om2 :: [], rfl, by decide⟩)]
        rw [mkIso_eval _ _ _ _ _ _ _ _ (some (-((val2 oh1 oh2 * 60 + val2 om1 om2 : Nat) : Int))) htz2
          hylo hyhi hmlo hmhi hdlo hdhi hhour hminute hsecond]
        rfl
      · have hfeb : frac.isEmpty = false := by
          cases frac with
          | nil => exact absurd rfl hfe
          | cons a l => rfl
        have hrender : renderRFC ⟨y1, y2, y3, y4, mo1, mo2, d1, d2, sep, h1, h2, mi1, mi2, s1, s2, frac, TZForm.num false oh1 oh2 om1 om2⟩ =
            ([y1, y2, y3, y4, '-', mo1, mo2, '-', d1, d2, sep, h1, h2, ':', mi1, mi2, ':', s1, s2] : List Char) ++
              '.' :: (frac ++ '-' :: oh1 :: oh2 :: ':' :: om1 :: om2 :: []) := by
          simp [renderRFC, renderOff, hfeb]
        rw [parse_timestamp]
        rw [if_neg (by
          rintro (h | h)
          · rw [hrender] at h
            simp at h
          · exact hne h)]
        rw [hrender, normalize_timestamp]
        rw [zstep_of_ne_Z _ (by
          rw [show (([y1, y2, y3, y4, '-', mo1, mo2, '-', d1, d2, sep, h1, h2, ':', mi1, mi2, ':', s1, s2] : List Char) ++
              '.' :: (frac ++ '-' :: oh1 :: oh2 :: ':' :: om1 :: om2 :: [])) =
            (([y1, y2, y3, y4, '-', mo1, mo2, '-', d1, d2, sep, h1, h2, ':', mi1, mi2, ':', s1, s2] : List Char) ++
              '.' :: (frac ++ '-' :: oh1 :: oh2 :: ':' :: om1 :: [])) ++ om2 :: []
            from by simp]
          rw [getLast?_append_cons]
          exact fun hcon =>
            ne_of_isDigit_of_not ho4 (by decide) (Option.some.inj hcon))]
        rw [normalize_split_dot _ _ _ hmain hfe
          (Or.inr (Or.inl ⟨pyFind_eq_none _ _ (by
          intro x hx
          rcases List.mem_append.mp hx with h | h
          · exact hfrac_ne_plus x h
          · simp only [List.mem_cons, List.not_mem_nil, or_false] at h
            rcases h with rfl|rfl|rfl|rfl|rfl|rfl
            · decide
            · exact ne_of_isDigit_of_not ho1 (by decide)
            · exact ne_of_isDigit_of_not ho2 (by decide)
            · decide
            · exact ne_of_isDigit_of_not ho3 (by decide)
            · exact ne_of_isDigit_of_not ho4 (by decide)),
          pyFind_append_self '-' frac _ hfrac_ne_minus⟩))]
        simp only [List.cons_append, List.nil_append]
        rw [pyFromIso_render y1 y2 y3 y4 mo1 mo2 d1 d2 sep h1 h2 mi1 mi2 s1 s2 _
          hy1 hy2 hy3 hy4 hmo1 hmo2 hd1 hd2 hh1 hh2 hmi1 hmi2 hs1 hs2]
        rw [parseFracAndTz_dot _ _ _ _ _ _ _ _ htake6d (take6_ne_nil frac hfe)
          (Or.inr ⟨'-', oh1 :: oh2 :: ':' :: om1 :: om2 :: [], rfl, by decide⟩)]
        rw [fracMicro_take6]
        rw [mkIso_eval _ _ _ _ _ _ _ _ (some (-((val2 oh1 oh2 * 60 + val2 om1 om2 : Nat) : Int))) htz2
          hylo hyhi hmlo hmhi hdlo hdhi hhour hminute hsecond]
        rfl

/-- C9: `parse_timestamp` maps `None`, the empty string, and the literal
`"0001-01-01T00:00:00Z"` to the current time, and parses every other
rendered RFC3339 date-time whose instant Python `datetime` can represent
(year 0001–9999, real-calendar day, second at most 59), truncating a
fractional-second run of up to 9 digits to 6 digits (microseconds).
The reported timezone is `expectedTz`: `Z` and `±HH:MM` survive, while
a lowercase `z` behind six or more fractional digits is destroyed by
the truncation, leaving a naive datetime. Inputs outside this shape —
such as a leap second `:60` — are not parsed (see the counterexample). -/
theorem c9_parse_timestamp (now : PyDatetime) (t : RFC3339Chars)
    (hv : IsValidRFC3339 t)
    (hne : renderRFC t ≠ "0001-01-01T00:00:00Z".toList) :
    parse_timestamp now Option.none = now ∧
    parse_timestamp now (some []) = now ∧
    parse_timestamp now (some "0001-01-01T00:00:00Z".toList) = now ∧
    parse_timestamp now (some (renderRFC t)) =
      { year := val4 t.y1 t.y2 t.y3 t.y4
        month := val2 t.mo1 t.mo2
        day := val2 t.d1 t.d2
        hour := val2 t.h1 t.h2
        minute := val2 t.mi1 t.mi2
        second := val2 t.s1 t.s2
        microsecond := fracMicro t.frac
        tzMinutes := expectedTz t } :=
  ⟨rfl, rfl, rfl, c9_render_parse now t hv hne⟩

/-- C9 counterexample to "accepts any RFC3339 timestamp": the RFC3339
leap-second instant `1990-12-31T23:59:60Z` is not parsed — whatever the
current time is, `parse_timestamp` falls back to it. -/
theorem c9_parse_timestamp_counterexample :
    parse_timestamp ⟨1999, 1, 1, 0, 0, 0, 0, Option.none⟩
      (some "1990-12-31T23:59:60Z".toList) =
      ⟨1999, 1, 1, 0, 0, 0, 0, Option.none⟩ ∧
    parse_timestamp ⟨2005, 6, 7, 8, 9, 10, 11, some 60⟩
      (some "1990-12-31T23:59:60Z".toList) =
      ⟨2005, 6, 7, 8, 9, 10, 11, some 60⟩ ∧
    (⟨1999, 1, 1, 0, 0, 0, 0, Option.none⟩ : PyDatetime) ≠
      ⟨2005, 6, 7, 8, 9, 10, 11, some 60⟩ ∧
    "1990-12-31T23:59:60Z".toList ≠ ([] : List Char) ∧
    "1990-12-31T23:59:60Z".toList ≠ "0001-01-01T00:00:00Z".toList := by
  refine ⟨?_, ?_, by decide, by decide, by decide⟩ <;>
    (rw [parse_timestamp, if_neg (by decide)]; rfl)

theorem c9_parse_timestamp_witness :
    parse_timestamp ⟨1999, 1, 1, 0, 0, 0, 0, Option.none⟩
      (some (renderRFC ⟨'2', '0', '2', '4', '0', '3', '0', '5', 'T', '0', '6', '0', '7',
        '0', '8', ['1', '2', '3', '4', '5', '6', '7', '8', '9'],
        TZForm.num true '0' '5' '3' '0'⟩)) =
      ⟨2024, 3, 5, 6, 7, 8, 123456, some 330⟩ :=
  (c9_parse_timestamp ⟨1999, 1, 1, 0, 0, 0, 0, Option.none⟩
    ⟨'2', '0', '2', '4', '0', '3', '0', '5', 'T', '0', '6', '0', '7', '0', '8',
      ['1', '2', '3', '4', '5', '6', '7', '8', '9'], TZForm.num true '0' '5' '3' '0'⟩
    (by constructor <;> first | decide | (constructor <;> decide))
    (by decide)).2.2.2

end OpenSandbox
